import Mathlib

/- Verification of the tag2cloud occupancy engine (src/tag2cloud.ts).

   Modelling conventions:
   * JavaScript 32-bit bitwise values are modelled as `Nat` bit patterns in
     [0, 2^32); the JS value `-1` is the pattern 4294967295 (`ALL32`).
   * JS shift counts are normalised as `ToUint32(s) & 31`, modelled by
     `jsAmt s = (s % 32).toNat` (Int.emod, which agrees with `ToUint32 _ & 31`).
   * For integer operands, JS `Math.floor(a / b)` is `Int.fdiv`, JS `a % b`
     is `Int.tmod` (remainder with the sign of the dividend), and JS `e >> 0`
     truncation of a division is `Int.tdiv` (truncation towards zero).
   * JS numbers used for weights, font sizes and glyph geometry are modelled
     as `Rat`; `Math.round x` is `⌊x + 1/2⌋` (`jsRound`), which matches the JS
     semantics of rounding half-way cases towards positive infinity.
   * JS arrays are Lean lists; reading a missing index takes the `undefined`
     branch of the source, modelled by explicit bounds checks; writing to a
     missing index of a bit-grid row is a no-op (the source guards every such
     write with an `!== undefined` check).
   * `Infinity` (the initial `minTagWeight`) is modelled by `Option Rat`
     with `none` standing for `Infinity`.
   * The DOM, canvas rendering contexts, `Math.random`, text measurement and
     image decoding are external collaborators: their responses are supplied
     as explicit oracle data (`TagEnv`), never computed here. -/

def W32 : Nat := 4294967296

def ALL32 : Nat := 4294967295

/-- JS shift-count normalisation: a shift count is taken `ToUint32(s) & 31`. -/
def jsAmt (s : Int) : Nat := (s % 32).toNat

/-- JS `a << s` on a 32-bit pattern. -/
def jsShl (a : Nat) (s : Int) : Nat := (a <<< jsAmt s) % W32

/-- JS `a >>> s` on a 32-bit pattern. -/
def jsShr (a : Nat) (s : Int) : Nat := a >>> jsAmt s

/-- JS `Math.ceil (a / b)` for natural `a`, positive natural `b`. -/
def jsCeil (a b : Nat) : Nat := (a + b - 1) / b

/-- In-place update of one list entry (`l[n] = f l[n]`); writing past the end
is a no-op, like the guarded writes in the source. -/
def listUpd {α : Type} : List α → Nat → (α → α) → List α
  | [], _, _ => []
  | a :: t, 0, f => f a :: t
  | a :: t, n+1, f => a :: listUpd t n f

theorem listUpd_length {α : Type} (l : List α) (n : Nat) (f : α → α) :
    (listUpd l n f).length = l.length := by
  induction l generalizing n with
  | nil => rfl
  | cons a t ih => cases n <;> simp [listUpd, ih]

theorem listUpd_getD_eq {α : Type} (l : List α) (n : Nat) (f : α → α) (d : α)
    (h : n < l.length) : (listUpd l n f).getD n d = f (l.getD n d) := by
  induction l generalizing n with
  | nil => simp at h
  | cons a t ih =>
    cases n with
    | zero => simp [listUpd]
    | succ m => simpa [listUpd] using ih m (by simpa using h)

theorem listUpd_getD_ne {α : Type} (l : List α) (n m : Nat) (f : α → α) (d : α)
    (h : n ≠ m) : (listUpd l n f).getD m d = l.getD m d := by
  induction l generalizing n m with
  | nil => rfl
  | cons a t ih =>
    cases n with
    | zero => cases m with
      | zero => exact absurd rfl h
      | succ k => simp [listUpd]
    | succ n' => cases m with
      | zero => simp [listUpd]
      | succ k => simpa [listUpd] using ih n' k (by omega)

/-- The placement options of a cloud (the subset of `Options` consumed by the
core; DOM/font/mask-image fields are presentation glue).  `pixelRatio` is
Nat-valued here (the constructor forces `Math.round(Math.max(pixelRatio, 1))`);
the field is named `pixelRatioNat`. -/
structure Options where
  width : Nat
  height : Nat
  pixelRatioNat : Nat
  lightThreshold : Nat
  opacityThreshold : Nat
  minFontSize : Rat
  maxFontSize : Rat
  angleFrom : Rat
  angleTo : Rat
  angleCount : Nat
  cut : Bool
  padding : Rat
deriving Repr, DecidableEq

/-- interface Pixels: a bit-grid with its pixel extent.  Each entry of `data`
is a row of 32-bit words; bit `31 - c % 32` of word `c / 32` is downsampled
cell column `c` (the source fills bits MSB-first via `1 << -(pixelX + 1)`). -/
structure Pixels where
  width : Nat
  height : Nat
  data : List (List Nat)
deriving Repr, DecidableEq

/-- ImageData collaborator: RGBA bytes in row-major order. -/
structure ImgData where
  width : Nat
  height : Nat
  data : List Nat
deriving Repr, DecidableEq

/-- generatePixels(width, height, fill, forTag).  `fill` is the JS word `-1`
or `0`, modelled as the pattern `ALL32` or `0`. -/
def generatePixels (opts : Options) (width height : Nat) (fill : Nat)
    (forTag : Bool) : Pixels :=
  let pixelXLength := jsCeil width opts.pixelRatioNat
  let pixelYLength := jsCeil height opts.pixelRatioNat
  let len := jsCeil pixelXLength 32
  let tailOffset := pixelXLength % 32
  let tailFill :=
    if forTag || tailOffset == 0 then fill
    else if opts.cut then fill &&& jsShl ALL32 (32 - (tailOffset : Int))
    else fill ||| jsShr ALL32 (tailOffset : Int)
  let xData := (List.replicate len fill).set (len - 1) tailFill
  { width := width, height := height,
    data := List.replicate pixelYLength xData }

/-- JS array read `row[j]` inside tryPlaceTag: `undefined`—i.e. an index
outside the row—is replaced by the `out` word. -/
def wordAt (row : List Nat) (j : Int) (outw : Nat) : Nat :=
  if 0 ≤ j ∧ j.toNat < row.length then row.getD j.toNat 0 else outw

/-- JS row read `thisData[i]` inside tryPlaceTag: an undefined row is
replaced by `[]`. -/
def rowAt (g : List (List Nat)) (i : Int) : List Nat :=
  if 0 ≤ i then g.getD i.toNat [] else []

/-- The 32-bit window of the grid row `row` that is bit-aligned with mask
word `j`, as reconstructed by tryPlaceTag's first pass:
`(current << offset) | ((next & fix) >>> (32 - offset))`. -/
def windowWord (cut : Bool) (g : List (List Nat)) (row : Int) (xx : Int)
    (offset : Int) (j : Nat) : Nat :=
  let outw := if cut then 0 else ALL32
  let fix := if offset = 0 then 0 else ALL32
  let yData := rowAt g row
  let current := wordAt yData (xx + j) outw
  let next := wordAt yData (xx + j + 1) outw &&& fix
  jsShl current offset ||| jsShr next (32 - offset)

/-- First pass of tryPlaceTag: scan every mask row `i` and word `j` and
report whether some pair collides (`(window & mask) != 0`); the source
returns `false` at the first collision, which has the same value and no
side effects. -/
def collides (cut : Bool) (thisData : List (List Nat)) (data : List (List Nat))
    (pixelsX pixelsY : Int) : Bool :=
  let offset := Int.tmod pixelsX 32
  let xx := Int.fdiv pixelsX 32
  (List.range data.length).any fun i =>
    (List.range (data.getD i []).length).any fun j =>
      decide (windowWord cut thisData (pixelsY + i) xx offset j
          &&& (data.getD i []).getD j 0 ≠ 0)

/-- Guarded grid write `yData[c] |= …` / `yData[c+1] |= …`: the source only
writes when the target index is defined, and a write into a missing row's
dummy `[]` is lost. -/
def gridUpd (g : List (List Nat)) (row col : Int) (f : Nat → Nat) :
    List (List Nat) :=
  if 0 ≤ row ∧ 0 ≤ col then listUpd g row.toNat (fun r => listUpd r col.toNat f)
  else g

/-- One iteration of tryPlaceTag's second (merge) pass for mask row `i`,
word `j`: `yData[xx+j] |= target >>> offset` and, when `offset ≠ 0`,
`yData[xx+j+1] |= target << (32 - offset)`. -/
def mergeStep (pixelsY xx offset : Int) (target : Nat) (i j : Nat)
    (g : List (List Nat)) : List (List Nat) :=
  let g1 := gridUpd g (pixelsY + i) (xx + j) (fun w => w ||| jsShr target offset)
  if offset = 0 then g1
  else gridUpd g1 (pixelsY + i) (xx + j + 1)
    (fun w => w ||| jsShl target (32 - offset))

/-- Second pass of tryPlaceTag: OR-merge every mask word into the grid. -/
def mergePass (thisData data : List (List Nat)) (pixelsX pixelsY : Int) :
    List (List Nat) :=
  let offset := Int.tmod pixelsX 32
  let xx := Int.fdiv pixelsX 32
  (List.range data.length).foldl (fun g i =>
    (List.range (data.getD i []).length).foldl (fun g j =>
      mergeStep pixelsY xx offset ((data.getD i []).getD j 0) i j g) g) thisData

/-- `pixelsX = Math.floor(x / pixelRatio)` of tryPlaceTag. -/
def pixelsXOf (opts : Options) (x : Int) : Int := Int.fdiv x opts.pixelRatioNat

/-- `pixelsY = Math.floor(y / pixelRatio)` of tryPlaceTag. -/
def pixelsYOf (opts : Options) (y : Int) : Int := Int.fdiv y opts.pixelRatioNat

/-- tryPlaceTag(pixels, x, y): two-pass collision test and merge against the
global grid `thisData`.  Returns the JS boolean together with the grid
contents after the call (the source mutates `this.pixels.data` in place). -/
def tryPlaceTag (opts : Options) (thisData : List (List Nat)) (pixels : Pixels)
    (x y : Int) : Bool × List (List Nat) :=
  let pixelsX := pixelsXOf opts x
  let pixelsY := pixelsYOf opts y
  if collides opts.cut thisData pixels.data pixelsX pixelsY then (false, thisData)
  else (true, mergePass thisData pixels.data pixelsX pixelsY)

/-- Inner `while (rest--)` loop of placeTag's x-phase: advance `x` by
`xDir * pixelRatio` per step, skip positions fully outside
`[-pixelsWidth, width]`, and return at the first accepted `tryPlaceTag`. -/
def xScan (opts : Options) (g : List (List Nat)) (pixels : Pixels)
    (y xDir : Int) : Nat → Int → Option ((Int × Int) × List (List Nat)) × Int
  | 0, x => (none, x)
  | n+1, x =>
    let x' := x + xDir * opts.pixelRatioNat
    if x' < -(pixels.width : Int) ∨ (opts.width : Int) < x' then
      xScan opts g pixels y xDir n x'
    else
      match tryPlaceTag opts g pixels x' y with
      | (true, g') => (some ((x', y), g'), x')
      | (false, _) => xScan opts g pixels y xDir n x'

/-- Inner `while (rest--)` loop of placeTag's y-phase. -/
def yScan (opts : Options) (g : List (List Nat)) (pixels : Pixels)
    (x yDir : Int) : Nat → Int → Option ((Int × Int) × List (List Nat)) × Int
  | 0, y => (none, y)
  | n+1, y =>
    let y' := y + yDir * opts.pixelRatioNat
    if y' < -(pixels.height : Int) ∨ (opts.height : Int) < y' then
      yScan opts g pixels x yDir n y'
    else
      match tryPlaceTag opts g pixels x y' with
      | (true, g') => (some ((x, y'), g'), y')
      | (false, _) => yScan opts g pixels x yDir n y'

/-- The x-phase of one ring: either skip the whole run (`y` fully outside
`[-pixelsHeight, height]`, advancing `x` by `xDir*pixelRatio*step` without
testing) or scan `step` sub-steps.  Returns (found?, new x). -/
def spiralXPhase (opts : Options) (g : List (List Nat)) (pixels : Pixels)
    (step x y xDir : Int) :
    Option ((Int × Int) × List (List Nat)) × Int :=
  if y < -(pixels.height : Int) ∨ (opts.height : Int) < y then
    (none, x + xDir * opts.pixelRatioNat * step)
  else xScan opts g pixels y xDir step.toNat x

/-- The y-phase of one ring with aspect-corrected extent `rest`. -/
def spiralYPhase (opts : Options) (g : List (List Nat)) (pixels : Pixels)
    (rest x y yDir : Int) :
    Option ((Int × Int) × List (List Nat)) × Int :=
  if x < -(pixels.width : Int) ∨ (opts.width : Int) < x then
    (none, y + yDir * opts.pixelRatioNat * rest)
  else yScan opts g pixels x yDir rest.toNat y

/-- The `while (step >> 1 < endLen)` loop of placeTag.  `fuel` is an explicit
bound on the number of iterations; `none` means the fuel ran out before the
loop finished (`spiralLoop_total` below proves this never happens for fuel
`(2 * endLen).toNat`, which is the source's termination bound).  The result
`some (none, g)` is the source's `return [NaN, NaN]`.  The y-extent
`(step * whRate) >> 0`, with `whRate = height / width` computed in floating
point, is modelled as `Int.tdiv (step * height) width`. -/
def spiralLoop (opts : Options) (g : List (List Nat)) (pixels : Pixels)
    (endLen : Int) :
    Nat → Int → Int → Int → Int → Int →
      Option (Option (Int × Int) × List (List Nat))
  | 0, _, _, _, _, _ => none
  | fuel+1, step, x, y, xDir, yDir =>
    if endLen ≤ Int.fdiv step 2 then some (none, g)
    else
      match spiralXPhase opts g pixels step x y xDir with
      | (some (p, g'), _) => some (some p, g')
      | (none, x₁) =>
        match spiralYPhase opts g pixels
            (Int.tdiv (step * opts.height) opts.width) x₁ y yDir with
        | (some (p, g'), _) => some (some p, g')
        | (none, y₁) =>
          spiralLoop opts g pixels endLen fuel (step+1) x₁ y₁ (-xDir) (-yDir)

/-- placeTag(pixels): spiral placement search.  The random direction signs
`Math.random() < 0.5 ? 1 : -1` are the oracle arguments `xDir`, `yDir`.
Returns the accepted position (or `none` for `[NaN, NaN]`) and the grid
after the call. -/
def placeStartX (opts : Options) (pixels : Pixels) : Int :=
  Int.tdiv ((opts.width : Int) - pixels.width) 2

def placeStartY (opts : Options) (pixels : Pixels) : Int :=
  Int.tdiv ((opts.height : Int) - pixels.height) 2

/-- The search bound `endLen = (max(startX, width-startX, startY,
height-startY) / pixelRatio + 1) >> 0` of placeTag. -/
def placeEndLen (opts : Options) (pixels : Pixels) : Int :=
  Int.tdiv (max (max (placeStartX opts pixels)
        ((opts.width : Int) - placeStartX opts pixels))
      (max (placeStartY opts pixels)
        ((opts.height : Int) - placeStartY opts pixels)))
    opts.pixelRatioNat + 1

def placeTag (opts : Options) (g : List (List Nat)) (pixels : Pixels)
    (xDir yDir : Int) : Option (Int × Int) × List (List Nat) :=
  let startX := placeStartX opts pixels
  let startY := placeStartY opts pixels
  let endLen := placeEndLen opts pixels
  match tryPlaceTag opts g pixels startX startY with
  | (true, g') => (some (startX, startY), g')
  | (false, _) =>
    match spiralLoop opts g pixels endLen (2 * endLen).toNat 1
        startX startY xDir yDir with
    | some r => r
    | none => (none, g)

/-- Scan of one destination cell's source-pixel block in
getPixelsFromImgData: the cell is "ink" iff some contained pixel has
`alpha ≥ opacityThreshold` and `R+G+B ≤ lightThreshold` (the source's
`break outer` after the first hit has the same value and no side effect). -/
def cellHasInk (img : ImgData) (pixelRat oTh lTh : Nat) (px py xLen yLen : Nat) :
    Bool :=
  (List.range yLen).any fun y =>
    (List.range xLen).any fun x =>
      let pos := (py * pixelRat + y) * (img.width * 4) + (px * pixelRat + x) * 4
      decide (oTh ≤ img.data.getD (pos + 3) 0) &&
        decide (img.data.getD pos 0 + img.data.getD (pos + 1) 0 +
          img.data.getD (pos + 2) 0 ≤ lTh)

/-- The per-ink-cell bit operation of getPixelsFromImgData:
`data[pixelY][xIndex] &= ~(1 << -(pixelX+1))` when `fill` is truthy, else
`data[pixelY][xIndex] |= 1 << -(pixelX+1)` (JS `~v` is `v XOR -1`). -/
def inkBitUpd (fill : Nat) (px : Nat) (w : Nat) : Nat :=
  if fill ≠ 0 then w &&& (ALL32 ^^^ jsShl 1 (-(px + 1 : Int)))
  else w ||| jsShl 1 (-(px + 1 : Int))

/-- Width of destination cell `px`'s source block:
`pixelX === pixelXLength - 1 ? edgeXLength : pixelRatio` with
`edgeXLength = width % pixelRatio || pixelRatio`. -/
def xLenOf (img : ImgData) (pixelRat : Nat) (px : Nat) : Nat :=
  if px = jsCeil img.width pixelRat - 1 then
    (if img.width % pixelRat = 0 then pixelRat else img.width % pixelRat)
  else pixelRat

/-- Height of destination cell `py`'s source block. -/
def yLenOf (img : ImgData) (pixelRat : Nat) (py : Nat) : Nat :=
  if py = jsCeil img.height pixelRat - 1 then
    (if img.height % pixelRat = 0 then pixelRat else img.height % pixelRat)
  else pixelRat

/-- getPixelsFromImgData(imgData, opacityThreshold, lightThreshold, fill,
forTag): downsample an RGBA buffer onto a fresh bit-grid.  The linear
`pixelCount` loop visits cell `n` as `(px, py) = (n % XL, n / XL)`. -/
def getPixelsFromImgData (opts : Options) (img : ImgData)
    (opacityThreshold lightThreshold : Nat) (fill : Nat) (forTag : Bool) :
    Pixels :=
  let pixelRat := opts.pixelRatioNat
  let base := generatePixels opts img.width img.height fill forTag
  let pixelXLength := jsCeil img.width pixelRat
  let pixelYLength := jsCeil img.height pixelRat
  let data := (List.range (pixelXLength * pixelYLength)).foldl (fun g n =>
    let px := n % pixelXLength
    let py := n / pixelXLength
    if cellHasInk img pixelRat opacityThreshold lightThreshold px py
        (xLenOf img pixelRat px) (yLenOf img pixelRat py) then
      listUpd g py (fun row => listUpd row (px / 32) (inkBitUpd fill px))
    else g) base.data
  { width := img.width, height := img.height, data := data }

/-- loadMaskImage: build the initial global grid from the decoded mask image
(the canvas draw/decode of the image at canvas resolution is the
collaborator; `img` is the resulting ImageData).  Uses the configured
thresholds with `fill = -1` and `forTag = false`. -/
def loadMaskImage (opts : Options) (img : ImgData) : Pixels :=
  getPixelsFromImgData opts img opts.opacityThreshold opts.lightThreshold
    ALL32 false

/-- interface Tag. -/
structure Tag where
  text : String
  weight : Rat
  angle : Option Rat
  color : Option String
deriving Repr, DecidableEq

/-- interface TagData; `x = none` / `y = none` model the `NaN` coordinates of
an unplaced tag. -/
structure TagData where
  text : String
  weight : Rat
  fontSize : Int
  angle : Rat
  color : String
  x : Option Int
  y : Option Int
  rendered : Bool
deriving Repr, DecidableEq

/-- Oracle data for one handleTag call: the random draws
(`(Math.random()*angleCount)>>0`, the random color, the two random spiral
direction signs) and the text-rasterizer collaborator's responses (measured
text metrics, the float sine/cosine of the rotation, and the RGBA bytes of
the rotated glyph's bounding box read back from the canvas). -/
structure TagEnv where
  angleIdx : Nat
  colorRand : String
  measuredWidth : Rat
  fontBoundingBoxAscent : Rat
  fontBoundingBoxDescent : Rat
  cosTheta : Rat
  sinTheta : Rat
  imgBytes : List Nat
  xDir : Int
  yDir : Int

/-- JS `Math.round`: round half-way cases towards positive infinity. -/
def jsRound (q : Rat) : Int := ⌊q + 1/2⌋

/-- JS `q >> 0`: truncation towards zero. -/
def jsTrunc (q : Rat) : Int := if 0 ≤ q then ⌊q⌋ else -⌊-q⌋

/-- getTagPixels: measure the rotated, padded glyph bounding box and fail
(`null`) when it exceeds the canvas; otherwise downsample the rasterized
glyph with thresholds `(2, 255*3)` onto a fresh tag mask. -/
def getTagPixels (opts : Options) (env : TagEnv) : Option Pixels :=
  let height := env.fontBoundingBoxAscent + env.fontBoundingBoxDescent
  let widthWithPadding := env.measuredWidth + opts.padding
  let heightWithPadding := height + opts.padding
  let pixelWidth := jsTrunc (|heightWithPadding * env.sinTheta| +
    |widthWithPadding * env.cosTheta|)
  let pixelHeight := jsTrunc (|heightWithPadding * env.cosTheta| +
    |widthWithPadding * env.sinTheta|)
  if (opts.height : Int) < pixelHeight ∨ (opts.width : Int) < pixelWidth then
    none
  else
    some (getPixelsFromImgData opts
      { width := pixelWidth.toNat, height := pixelHeight.toNat,
        data := env.imgBytes } 2 765 0 true)

/-- State of one Tag2Cloud instance: options, the global occupancy grid
(`this.pixels`) and the running weight extrema.  `minTagWeight = none`
models the initial `Infinity`. -/
structure CloudState where
  options : Options
  pixels : Pixels
  maxTagWeight : Rat
  minTagWeight : Option Rat
deriving Repr, DecidableEq

/-- The font-size computation of handleTag.  With `minTagWeight = Infinity`
(`none`), `diffWeight = -Infinity` fails the `> 0` test and the midpoint
branch is taken, as in the source. -/
def computeFontSize (opts : Options) (maxW : Rat) (minW : Option Rat)
    (weight : Rat) : Int :=
  match minW with
  | none => jsRound ((opts.maxFontSize + opts.minFontSize) / 2)
  | some minTagWeight =>
    let diffWeight := maxW - minTagWeight
    if 0 < diffWeight then
      jsRound (opts.minFontSize + (opts.maxFontSize - opts.minFontSize) *
        ((weight - minTagWeight) / diffWeight))
    else jsRound ((opts.maxFontSize + opts.minFontSize) / 2)

/-- handleTag(tag): derive font size, angle and color, build the tag mask,
run the placement search, and record the glyph center on success. -/
def handleTag (env : TagEnv) (s : CloudState) (tag : Tag) :
    TagData × CloudState :=
  let opts := s.options
  let fontSize := computeFontSize opts s.maxTagWeight s.minTagWeight tag.weight
  let angle :=
    match tag.angle with
    | some a => a
    | none =>
      if opts.angleCount = 1 then opts.angleFrom
      else opts.angleFrom + ((env.angleIdx : Rat) / ((opts.angleCount : Rat) - 1))
        * (opts.angleTo - opts.angleFrom)
  let color := tag.color.getD env.colorRand
  let base : TagData :=
    { text := tag.text, weight := tag.weight, fontSize := fontSize,
      angle := angle, color := color, x := none, y := none, rendered := false }
  match getTagPixels opts env with
  | none => (base, s)
  | some pixels =>
    match placeTag opts s.pixels.data pixels env.xDir env.yDir with
    | (none, g') => (base, { s with pixels := { s.pixels with data := g' } })
    | (some (x, y), g') =>
      ({ base with
          x := some (jsTrunc ((x : Rat) + (pixels.width : Rat) / 2)),
          y := some (jsTrunc ((y : Rat) + (pixels.height : Rat) / 2)),
          rendered := true },
        { s with pixels := { s.pixels with data := g' } })

/-- The per-tag loop of performDraw (the cooperative `setTimeout` yields and
the DOM/canvas `layout` calls are presentation-only and do not affect the
returned data).  `envs i` is the oracle for the i-th tag in sorted order. -/
def drawLoop (envs : Nat → TagEnv) :
    Nat → CloudState → List Tag → List TagData × CloudState
  | _, s, [] => ([], s)
  | i, s, t :: ts =>
    let r := handleTag (envs i) s t
    let rest := drawLoop envs (i+1) r.2 ts
    (r.1 :: rest.1, rest.2)

/-- `tags.sort((a, b) => b.weight - a.weight)`: ES2019 `Array.prototype.sort`
is stable, so the in-place sort is a stable merge sort by descending
weight. -/
def sortTags (tags : List Tag) : List Tag :=
  tags.mergeSort fun a b => decide (b.weight ≤ a.weight)

/-- performDraw(tags): sort the caller's array in place (the second
component is the caller-visible content of that array after the call),
then handle each tag in sorted order, accumulating one TagData each. -/
def performDraw (envs : Nat → TagEnv) (s : CloudState) (tags : List Tag) :
    List TagData × List Tag × CloudState :=
  let sorted := sortTags tags
  let r := drawLoop envs 0 s sorted
  (r.1, sorted, r.2)

/-- The weight-extrema update loop at the top of draw(). -/
def observeWeights (tags : List Tag) (maxW : Rat) (minW : Option Rat) :
    Rat × Option Rat :=
  tags.foldl (fun p t =>
    let mx := if p.1 < t.weight then t.weight else p.1
    let mn :=
      match p.2 with
      | none => some t.weight
      | some m => if t.weight < m then some t.weight else some m
    (mx, mn)) (maxW, minW)

/-- initPixels without a mask image: the global grid starts fully free via
`generatePixels(width, height, 0, false)`.  (With a mask image the grid is
instead built asynchronously by `loadMaskImage`.) -/
def initPixels (opts : Options) : Pixels :=
  generatePixels opts opts.width opts.height 0 false

/-- draw(tags): empty batches return `[]` immediately; otherwise update the
running weight extrema from the batch, then performDraw.  Result:
(returned TagData list, caller's tags-array content after the call,
new instance state). -/
def draw (envs : Nat → TagEnv) (s : CloudState) (tags : List Tag) :
    List TagData × List Tag × CloudState :=
  match tags with
  | [] => ([], [], s)
  | _ :: _ =>
    let w := observeWeights tags s.maxTagWeight s.minTagWeight
    performDraw envs { s with maxTagWeight := w.1, minTagWeight := w.2 } tags

/-- clear(): empties the DOM wrapper and display canvas (presentation) and
rebuilds the initial grid via initPixels.  Note it touches no other field. -/
def clear (s : CloudState) : CloudState :=
  { s with pixels := initPixels s.options }

/-- The state of a freshly constructed instance:
`maxTagWeight = 0`, `minTagWeight = Infinity`, grid from initPixels. -/
def freshState (opts : Options) : CloudState :=
  { options := opts, pixels := initPixels opts, maxTagWeight := 0,
    minTagWeight := none }

/-- Specification-side accessor: the occupancy of downsampled cell
`(row, col)` as tryPlaceTag sees it — out-of-bounds cells read as the
`out` word (all-free when `cut`, all-occupied otherwise). -/
def cellAt (cut : Bool) (g : List (List Nat)) (row col : Int) : Bool :=
  let outw := if cut then 0 else ALL32
  (wordAt (rowAt g row) (Int.fdiv col 32) outw).testBit (31 - (col % 32).toNat)

/-- Specification-side accessor: ink bit of mask cell `(i, c)` (row `i`,
downsampled column `c`). -/
def maskBit (data : List (List Nat)) (i c : Nat) : Bool :=
  ((data.getD i []).getD (c / 32) 0).testBit (31 - c % 32)

/-- Specification-side accessor: bit of cell `(px, py)` of a Pixels grid. -/
def cellBit (p : Pixels) (px py : Nat) : Bool :=
  ((p.data.getD py []).getD (px / 32) 0).testBit (31 - px % 32)

theorem W32_eq : W32 = 2 ^ 32 := by norm_num [W32]

theorem ALL32_eq : ALL32 = 2 ^ 32 - 1 := by norm_num [ALL32]

theorem tmod_32_sub (a : Int) : a.tmod 32 = a - 32 * a.tdiv 32 := by
  have h := Int.tmod_add_tdiv a 32
  linarith

theorem jsAmt_tmod (a : Int) : jsAmt (a.tmod 32) = (a % 32).toNat := by
  rw [jsAmt, tmod_32_sub]
  omega

theorem tmod_32_eq_zero_iff (a : Int) : a.tmod 32 = 0 ↔ a % 32 = 0 := by
  rw [tmod_32_sub]
  constructor
  · intro h; omega
  · intro h
    have h2 : a.tdiv 32 = a / 32 := by
      have := Int.emod_emod_of_dvd a (dvd_refl (32 : Int))
      rw [Int.tdiv_eq_ediv_of_dvd (by omega)]
    omega

theorem jsAmt_32_sub_tmod (a : Int) (h : a % 32 ≠ 0) :
    jsAmt (32 - a.tmod 32) = 32 - (a % 32).toNat := by
  rw [jsAmt, tmod_32_sub]
  omega

theorem jsAmt_32_sub_tmod_zero (a : Int) (h : a % 32 = 0) :
    jsAmt (32 - a.tmod 32) = 0 := by
  rw [jsAmt, tmod_32_sub]
  omega

theorem fdiv_32_decomp (a : Int) : a = 32 * Int.fdiv a 32 + (a % 32) := by
  rw [Int.fdiv_eq_ediv a (by norm_num)]
  omega

theorem emod_32_lt (a : Int) : (a % 32).toNat < 32 := by omega

theorem fdiv_32_shift (q : Int) (t : Nat) (ht : t < 32) :
    Int.fdiv (32 * q + t) 32 = q := by
  rw [Int.fdiv_eq_ediv _ (by norm_num)]
  omega

theorem emod_32_shift (q : Int) (t : Nat) (ht : t < 32) :
    (((32 * q + t : Int)) % 32).toNat = t := by omega

/-- Bit `31 - k` of the reconstructed window for mask word `j` equals the
occupancy of grid cell `pixelsX + 32*j + k` — the bit-offset shifting of
tryPlaceTag aligns the window with the mask even for negative `pixelsX`
(where the JS `%` remainder and shift-count wraparound conspire to the same
formula). -/
theorem windowWord_testBit (cut : Bool) (g : List (List Nat)) (row : Int)
    (pixelsX : Int) (j k : Nat) (hk : k < 32) :
    (windowWord cut g row (Int.fdiv pixelsX 32) (Int.tmod pixelsX 32) j).testBit
        (31 - k)
      = cellAt cut g row (pixelsX + (32 * j + k)) := by
  have hW : W32 = 2 ^ 32 := W32_eq
  have hA : ALL32 = 2 ^ 32 - 1 := ALL32_eq
  set r := (pixelsX % 32).toNat with hr
  have hr32 : r < 32 := emod_32_lt pixelsX
  have hdec : pixelsX = 32 * Int.fdiv pixelsX 32 + r := by
    have := fdiv_32_decomp pixelsX
    omega
  set X := Int.fdiv pixelsX 32 with hX
  by_cases hr0 : r = 0
  · -- offset = 0: the window is just the current word
    have hoff : Int.tmod pixelsX 32 = 0 := by
      rw [tmod_32_eq_zero_iff]
      omega
    have hcol0 : pixelsX + (32 * (j : Int) + (k : Int))
        = 32 * (X + (j : Int)) + ((k : Nat) : Int) := by
      omega
    rw [windowWord, cellAt, hoff, hcol0, fdiv_32_shift _ _ hk,
      emod_32_shift _ _ hk]
    simp only [if_pos rfl, jsShl, jsShr, hW, jsAmt]
    norm_num
    rw [show (4294967296 : Nat) = 2 ^ 32 by norm_num, Nat.testBit_mod_two_pow]
    have hlt : 31 - k < 32 := by omega
    simp [hlt]
  · -- offset ≠ 0
    have hoff : ¬ Int.tmod pixelsX 32 = 0 := by
      rw [tmod_32_eq_zero_iff]
      omega
    have hamt : jsAmt (Int.tmod pixelsX 32) = r := jsAmt_tmod pixelsX
    have hamt2 : jsAmt (32 - Int.tmod pixelsX 32) = 32 - r :=
      jsAmt_32_sub_tmod pixelsX (by omega)
    rw [windowWord, cellAt]
    simp only [if_neg hoff]
    rw [jsShl, jsShr, hamt, hamt2, hW]
    rw [Nat.testBit_lor, Nat.testBit_mod_two_pow, Nat.testBit_shiftLeft,
      Nat.testBit_shiftRight, Nat.testBit_land]
    by_cases hkr : r + k < 32
    · -- the cell sits inside the current word
      have hcolA : pixelsX + (32 * (j : Int) + (k : Int))
          = 32 * (X + (j : Int)) + ((r + k : Nat) : Int) := by
        push_cast
        omega
      rw [hcolA, fdiv_32_shift _ _ hkr, emod_32_shift _ _ hkr]
      have h4 : ALL32.testBit (32 - r + (31 - k)) = false := by
        rw [hA, Nat.testBit_two_pow_sub_one]
        simp only [decide_eq_false_iff_not]
        omega
      have h2 : (31 - k ≥ r) := by omega
      have h3 : 31 - k - r = 31 - (r + k) := by omega
      simp [h2, h3, h4]
      omega
    · -- the cell spills into the next word
      have hkr' : r + k - 32 < 32 := by omega
      have hcolB : pixelsX + (32 * (j : Int) + (k : Int))
          = 32 * (X + (j : Int) + 1) + ((r + k - 32 : Nat) : Int) := by
        omega
      rw [hcolB, fdiv_32_shift _ _ hkr', emod_32_shift _ _ hkr']
      have h4 : ALL32.testBit (32 - r + (31 - k)) = true := by
        rw [hA, Nat.testBit_two_pow_sub_one]
        simp only [decide_eq_true_eq]
        omega
      have h1 : ¬ (31 - k ≥ r) := by omega
      have h5 : 32 - r + (31 - k) = 31 - (r + k - 32) := by omega
      simp [h1, h4, h5]
      intro h'
      rw [← h5]
      exact h4

theorem tryPlaceTag_fst (opts : Options) (g : List (List Nat)) (m : Pixels)
    (x y : Int) :
    (tryPlaceTag opts g m x y).1
      = !collides opts.cut g m.data (pixelsXOf opts x) (pixelsYOf opts y) := by
  rw [tryPlaceTag]
  split <;> simp_all

theorem tryPlaceTag_snd_of_fail (opts : Options) (g : List (List Nat))
    (m : Pixels) (x y : Int)
    (h : (tryPlaceTag opts g m x y).1 = false) :
    (tryPlaceTag opts g m x y).2 = g := by
  rw [tryPlaceTag] at h ⊢
  split at h <;> simp_all [tryPlaceTag]

theorem tryPlaceTag_snd_of_true (opts : Options) (g : List (List Nat))
    (m : Pixels) (x y : Int)
    (h : (tryPlaceTag opts g m x y).1 = true) :
    (tryPlaceTag opts g m x y).2
      = mergePass g m.data (pixelsXOf opts x) (pixelsYOf opts y) := by
  rw [tryPlaceTag] at h ⊢
  split at h <;> simp_all

/-- If some ink cell of the mask maps, through the placement offset, onto an
occupied grid cell (as seen by `cellAt`, including the out-of-bounds `out`
words), then the first pass of tryPlaceTag reports a collision. -/
theorem collides_of_cell (cut : Bool) (thisData data : List (List Nat))
    (pixelsX pixelsY : Int) (i c : Nat)
    (hi : i < data.length) (hc : c < 32 * (data.getD i []).length)
    (hm : maskBit data i c = true)
    (hcell : cellAt cut thisData (pixelsY + i) (pixelsX + c) = true) :
    collides cut thisData data pixelsX pixelsY = true := by
  rw [collides, List.any_eq_true]
  refine ⟨i, List.mem_range.mpr hi, ?_⟩
  rw [List.any_eq_true]
  have hj : c / 32 < (data.getD i []).length := by omega
  refine ⟨c / 32, List.mem_range.mpr hj, ?_⟩
  rw [decide_eq_true_eq]
  intro h0
  have hk : c % 32 < 32 := Nat.mod_lt _ (by norm_num)
  have hbit := windowWord_testBit cut thisData (pixelsY + i) pixelsX
    (c / 32) (c % 32) hk
  have hcc : pixelsX + (32 * ((c / 32 : Nat) : Int) + ((c % 32 : Nat) : Int))
      = pixelsX + c := by
    push_cast
    omega
  rw [hcc, hcell] at hbit
  have hland : (windowWord cut thisData (pixelsY + i) (Int.fdiv pixelsX 32)
      (Int.tmod pixelsX 32) (c / 32) &&& (data.getD i []).getD (c / 32) 0).testBit
      (31 - c % 32) = true := by
    rw [Nat.testBit_land, hbit]
    rw [maskBit] at hm
    rw [hm]
    rfl
  rw [h0] at hland
  simp at hland

/-- Raw bit accessor used by the merge-pass proofs (no `out` substitution). -/
def gBit (g : List (List Nat)) (R W b : Nat) : Bool :=
  ((g.getD R []).getD W 0).testBit b

theorem cellAt_eq_gBit (cut : Bool) (g : List (List Nat)) (row col : Int)
    (h0r : 0 ≤ row) (hR : row.toNat < g.length)
    (h0c : 0 ≤ Int.fdiv col 32)
    (hC : (Int.fdiv col 32).toNat < (g.getD row.toNat []).length) :
    cellAt cut g row col
      = gBit g row.toNat (Int.fdiv col 32).toNat (31 - (col % 32).toNat) := by
  rw [cellAt, gBit, rowAt, if_pos h0r, wordAt, if_pos ⟨h0c, hC⟩]

theorem gridUpd_length (g : List (List Nat)) (row col : Int) (f : Nat → Nat) :
    (gridUpd g row col f).length = g.length := by
  rw [gridUpd]
  split <;> simp [listUpd_length]

theorem gridUpd_row_length (g : List (List Nat)) (row col : Int) (f : Nat → Nat)
    (R : Nat) :
    ((gridUpd g row col f).getD R []).length = ((g.getD R []).length) := by
  rw [gridUpd]
  split
  · by_cases hR : row.toNat = R
    · subst hR
      by_cases hlen : row.toNat < g.length
      · rw [listUpd_getD_eq _ _ _ _ hlen, listUpd_length]
      · have h1 : (listUpd g row.toNat
            (fun r => listUpd r col.toNat f)).getD row.toNat [] = [] := by
          rw [List.getD_eq_getElem?_getD, List.getElem?_eq_none, Option.getD_none]
          rw [listUpd_length]
          omega
        rw [h1, List.getD_eq_getElem?_getD, List.getElem?_eq_none, Option.getD_none]
        omega
    · rw [listUpd_getD_ne _ _ _ _ _ hR]
  · rfl

theorem getD_default {α : Type} (l : List α) (n : Nat) (d : α)
    (h : l.length ≤ n) : l.getD n d = d := by
  rw [List.getD_eq_getElem?_getD, List.getElem?_eq_none h, Option.getD_none]

/-- A guarded OR-write never clears a set bit. -/
theorem gridUpd_or_mono (g : List (List Nat)) (row col : Int) (v : Nat)
    (R W b : Nat) (h : gBit g R W b = true) :
    gBit (gridUpd g row col (fun w => w ||| v)) R W b = true := by
  rw [gBit] at h
  rw [gBit, gridUpd]
  split
  · by_cases hR : row.toNat = R
    · subst hR
      by_cases hlen : row.toNat < g.length
      · rw [listUpd_getD_eq _ _ _ _ hlen]
        by_cases hW : col.toNat = W
        · subst hW
          by_cases hwlen : col.toNat < (g.getD row.toNat []).length
          · rw [listUpd_getD_eq _ _ _ _ hwlen, Nat.testBit_lor, h]
            simp
          · exfalso
            rw [getD_default _ _ _ (by omega)] at h
            simp at h
        · rw [listUpd_getD_ne _ _ _ _ _ hW]
          exact h
      · exfalso
        rw [getD_default g _ _ (by omega)] at h
        simp [List.getD] at h
    · rw [listUpd_getD_ne _ _ _ _ _ hR]
      exact h
  · exact h

/-- One merge-pass step never clears a set bit. -/
theorem mergeStep_mono (pixelsY xx offset : Int) (target : Nat) (i j : Nat)
    (g : List (List Nat)) (R W b : Nat) (h : gBit g R W b = true) :
    gBit (mergeStep pixelsY xx offset target i j g) R W b = true := by
  rw [mergeStep]
  split
  · exact gridUpd_or_mono _ _ _ _ _ _ _ h
  · exact gridUpd_or_mono _ _ _ _ _ _ _ (gridUpd_or_mono _ _ _ _ _ _ _ h)

theorem mergeStep_length (pixelsY xx offset : Int) (target : Nat) (i j : Nat)
    (g : List (List Nat)) :
    (mergeStep pixelsY xx offset target i j g).length = g.length := by
  rw [mergeStep]
  split <;> simp [gridUpd_length]

theorem mergeStep_row_length (pixelsY xx offset : Int) (target : Nat)
    (i j : Nat) (g : List (List Nat)) (R : Nat) :
    ((mergeStep pixelsY xx offset target i j g).getD R []).length
      = (g.getD R []).length := by
  rw [mergeStep]
  split
  · exact gridUpd_row_length _ _ _ _ _
  · rw [gridUpd_row_length, gridUpd_row_length]

theorem foldl_preserve {α β : Type} (f : β → α → β) (P : β → Prop)
    (h : ∀ b a, P b → P (f b a)) :
    ∀ (L : List α) (b : β), P b → P (L.foldl f b) := by
  intro L
  induction L with
  | nil => intro b hb; exact hb
  | cons a t ih => intro b hb; exact ih (f b a) (h b a hb)

theorem foldl_reach {α β : Type} (f : β → α → β) (P Q : β → Prop)
    (hPf : ∀ b a, P b → P (f b a)) (hQf : ∀ b a, Q b → Q (f b a))
    (a₀ : α) (hest : ∀ b, Q b → P (f b a₀)) :
    ∀ (L : List α) (b : β), a₀ ∈ L → Q b → P (L.foldl f b) := by
  intro L
  induction L with
  | nil => intro b hmem; simp at hmem
  | cons a t ih =>
    intro b hmem hQ
    rcases List.mem_cons.mp hmem with heq | hmem'
    · subst heq
      exact foldl_preserve f P hPf t (f b a₀) (hest b hQ)
    · exact ih (f b a) hmem' (hQf b a hQ)

theorem gridUpd_gBit_hit (g : List (List Nat)) (row col : Int) (f : Nat → Nat)
    (h0r : 0 ≤ row) (h0c : 0 ≤ col)
    (hR : row.toNat < g.length)
    (hC : col.toNat < (g.getD row.toNat []).length) (b : Nat) :
    gBit (gridUpd g row col f) row.toNat col.toNat b
      = (f ((g.getD row.toNat []).getD col.toNat 0)).testBit b := by
  rw [gBit, gridUpd, if_pos ⟨h0r, h0c⟩, listUpd_getD_eq _ _ _ _ hR,
    listUpd_getD_eq _ _ _ _ hC]

/-- The merge step for mask row `i`, word `c / 32` sets the grid bit that
corresponds to ink cell `(i, c)`, whenever the target grid word exists.
`g` is any intermediate grid with the same shape as the original. -/
theorem mergeStep_sets (thisData data : List (List Nat))
    (pixelsX pixelsY : Int) (i c : Nat)
    (hc : c < 32 * (data.getD i []).length)
    (hm : maskBit data i c = true)
    (h0r : 0 ≤ pixelsY + (i : Int))
    (hR : (pixelsY + (i : Int)).toNat < thisData.length)
    (h0c : 0 ≤ Int.fdiv (pixelsX + c) 32)
    (hW : (Int.fdiv (pixelsX + c) 32).toNat
        < (thisData.getD (pixelsY + (i : Int)).toNat []).length)
    (g : List (List Nat))
    (hlen : g.length = thisData.length)
    (hrows : ∀ R', (g.getD R' []).length = (thisData.getD R' []).length) :
    gBit (mergeStep pixelsY (Int.fdiv pixelsX 32) (Int.tmod pixelsX 32)
        ((data.getD i []).getD (c / 32) 0) i (c / 32) g)
      (pixelsY + (i : Int)).toNat (Int.fdiv (pixelsX + c) 32).toNat
      (31 - ((pixelsX + c) % 32).toNat) = true := by
  rw [maskBit] at hm
  set target := (data.getD i []).getD (c / 32) 0 with htarget
  set r := (pixelsX % 32).toNat with hr
  have hr32 : r < 32 := emod_32_lt pixelsX
  have hkc : c % 32 < 32 := Nat.mod_lt _ (by norm_num)
  have hdec : pixelsX = 32 * Int.fdiv pixelsX 32 + r := by
    have := fdiv_32_decomp pixelsX
    omega
  set X := Int.fdiv pixelsX 32 with hX
  have hamt : jsAmt (Int.tmod pixelsX 32) = r := jsAmt_tmod pixelsX
  by_cases hkr : r + c % 32 < 32
  · -- the ink cell lands in grid word X + c/32
    have hcolA : pixelsX + (c : Int)
        = 32 * (X + ((c / 32 : Nat) : Int)) + ((r + c % 32 : Nat) : Int) := by
      push_cast
      omega
    have hWeq : Int.fdiv (pixelsX + c) 32 = X + ((c / 32 : Nat) : Int) := by
      rw [hcolA, fdiv_32_shift _ _ hkr]
    have hbiteq : ((pixelsX + c) % 32).toNat = r + c % 32 := by
      rw [hcolA, emod_32_shift _ _ hkr]
    rw [hWeq] at h0c hW
    rw [mergeStep, hWeq, hbiteq]
    have hfirst : gBit (gridUpd g (pixelsY + i) (X + ((c / 32 : Nat) : Int))
        (fun w => w ||| jsShr target (Int.tmod pixelsX 32)))
        (pixelsY + (i : Int)).toNat (X + ((c / 32 : Nat) : Int)).toNat
        (31 - (r + c % 32)) = true := by
      rw [gridUpd_gBit_hit _ _ _ _ h0r h0c (by omega)
        (by rw [hrows]; exact hW)]
      rw [Nat.testBit_lor]
      have hshr : (jsShr target (Int.tmod pixelsX 32)).testBit
          (31 - (r + c % 32)) = true := by
        rw [jsShr, hamt, Nat.testBit_shiftRight]
        have hidx : r + (31 - (r + c % 32)) = 31 - c % 32 := by omega
        rw [hidx, hm]
      rw [hshr]
      simp
    split
    · exact hfirst
    · exact gridUpd_or_mono _ _ _ _ _ _ _ hfirst
  · -- the ink cell spills into grid word X + c/32 + 1
    have hrne : ¬ r = 0 := by omega
    have hoff : ¬ Int.tmod pixelsX 32 = 0 := by
      rw [tmod_32_eq_zero_iff]
      omega
    have hamt2 : jsAmt (32 - Int.tmod pixelsX 32) = 32 - r :=
      jsAmt_32_sub_tmod pixelsX (by omega)
    have hkr' : r + c % 32 - 32 < 32 := by omega
    have hcolB : pixelsX + (c : Int)
        = 32 * (X + ((c / 32 : Nat) : Int) + 1)
          + ((r + c % 32 - 32 : Nat) : Int) := by
      push_cast
      omega
    have hWeq : Int.fdiv (pixelsX + c) 32
        = X + ((c / 32 : Nat) : Int) + 1 := by
      rw [hcolB, fdiv_32_shift _ _ hkr']
    have hbiteq : ((pixelsX + c) % 32).toNat = r + c % 32 - 32 := by
      rw [hcolB, emod_32_shift _ _ hkr']
    rw [hWeq] at h0c hW
    rw [mergeStep, if_neg hoff, hWeq, hbiteq]
    have hshape1 : ∀ R', ((gridUpd g (pixelsY + i) (X + ((c / 32 : Nat) : Int))
        (fun w => w ||| jsShr target (Int.tmod pixelsX 32))).getD R' []).length
        = (thisData.getD R' []).length := by
      intro R'
      rw [gridUpd_row_length, hrows]
    have hlen1 : (gridUpd g (pixelsY + i) (X + ((c / 32 : Nat) : Int))
        (fun w => w ||| jsShr target (Int.tmod pixelsX 32))).length
        = thisData.length := by
      rw [gridUpd_length, hlen]
    rw [gridUpd_gBit_hit _ _ _ _ h0r h0c (by omega)
      (by rw [hshape1]; exact hW)]
    rw [Nat.testBit_lor]
    have hshl : (jsShl target (32 - Int.tmod pixelsX 32)).testBit
        (31 - (r + c % 32 - 32)) = true := by
      rw [jsShl, hamt2, W32_eq, Nat.testBit_mod_two_pow, Nat.testBit_shiftLeft]
      have hb32 : 31 - (r + c % 32 - 32) < 32 := by omega
      have hge : 31 - (r + c % 32 - 32) ≥ 32 - r := by omega
      have hidx : 31 - (r + c % 32 - 32) - (32 - r) = 31 - c % 32 := by omega
      simp [hb32, hge, hidx, hm]
    rw [hshl]
    simp

theorem mergePass_shape (thisData data : List (List Nat))
    (pixelsX pixelsY : Int) :
    (mergePass thisData data pixelsX pixelsY).length = thisData.length
      ∧ ∀ R', ((mergePass thisData data pixelsX pixelsY).getD R' []).length
          = (thisData.getD R' []).length := by
  simp only [mergePass]
  refine foldl_preserve _
    (fun g : List (List Nat) => g.length = thisData.length
      ∧ ∀ R', (g.getD R' []).length = (thisData.getD R' []).length)
    ?_ _ _ ⟨rfl, fun _ => rfl⟩
  intro g i' hQ
  refine foldl_preserve _
    (fun g : List (List Nat) => g.length = thisData.length
      ∧ ∀ R', (g.getD R' []).length = (thisData.getD R' []).length)
    ?_ _ _ hQ
  intro g j hQ
  exact ⟨by rw [mergeStep_length]; exact hQ.1,
    fun R' => by rw [mergeStep_row_length]; exact hQ.2 R'⟩

/-- After the merge pass, the grid bit of every ink cell of the mask whose
target grid word exists is set. -/
theorem mergePass_sets_cell (thisData data : List (List Nat))
    (pixelsX pixelsY : Int) (i c : Nat)
    (hi : i < data.length)
    (hc : c < 32 * (data.getD i []).length)
    (hm : maskBit data i c = true)
    (h0r : 0 ≤ pixelsY + (i : Int))
    (hR : (pixelsY + (i : Int)).toNat < thisData.length)
    (h0c : 0 ≤ Int.fdiv (pixelsX + c) 32)
    (hW : (Int.fdiv (pixelsX + c) 32).toNat
        < (thisData.getD (pixelsY + (i : Int)).toNat []).length) :
    gBit (mergePass thisData data pixelsX pixelsY)
      (pixelsY + (i : Int)).toNat (Int.fdiv (pixelsX + c) 32).toNat
      (31 - ((pixelsX + c) % 32).toNat) = true := by
  simp only [mergePass]
  refine foldl_reach _
    (fun g : List (List Nat) => gBit g (pixelsY + (i : Int)).toNat
      (Int.fdiv (pixelsX + c) 32).toNat
      (31 - ((pixelsX + c) % 32).toNat) = true)
    (fun g : List (List Nat) => g.length = thisData.length
      ∧ ∀ R', (g.getD R' []).length = (thisData.getD R' []).length)
    ?_ ?_ i ?_ _ _ (List.mem_range.mpr hi) ⟨rfl, fun _ => rfl⟩
  · intro g i' hP
    exact foldl_preserve _
      (fun g : List (List Nat) => gBit g (pixelsY + (i : Int)).toNat
        (Int.fdiv (pixelsX + c) 32).toNat
        (31 - ((pixelsX + c) % 32).toNat) = true)
      (fun g j hP => mergeStep_mono _ _ _ _ _ _ _ _ _ _ hP) _ _ hP
  · intro g i' hQ
    refine foldl_preserve _
      (fun g : List (List Nat) => g.length = thisData.length
        ∧ ∀ R', (g.getD R' []).length = (thisData.getD R' []).length)
      ?_ _ _ hQ
    intro g j hQ
    exact ⟨by rw [mergeStep_length]; exact hQ.1,
      fun R' => by rw [mergeStep_row_length]; exact hQ.2 R'⟩
  · intro g hQ
    refine foldl_reach _
      (fun g : List (List Nat) => gBit g (pixelsY + (i : Int)).toNat
        (Int.fdiv (pixelsX + c) 32).toNat
        (31 - ((pixelsX + c) % 32).toNat) = true)
      (fun g : List (List Nat) => g.length = thisData.length
        ∧ ∀ R', (g.getD R' []).length = (thisData.getD R' []).length)
      ?_ ?_ (c / 32) ?_ _ _ (List.mem_range.mpr (by omega)) hQ
    · intro g j hP
      exact mergeStep_mono _ _ _ _ _ _ _ _ _ _ hP
    · intro g j hQ
      exact ⟨by rw [mergeStep_length]; exact hQ.1,
        fun R' => by rw [mergeStep_row_length]; exact hQ.2 R'⟩
    · intro g hQ
      exact mergeStep_sets thisData data pixelsX pixelsY i c hc hm h0r hR h0c hW
        g hQ.1 hQ.2

theorem testBit_ALL32_lt (b : Nat) (h : b < 32) : ALL32.testBit b = true := by
  rw [ALL32_eq, Nat.testBit_two_pow_sub_one]
  simp [h]

theorem fdiv_32_toNat (col : Int) (h : 0 ≤ col) :
    (Int.fdiv col 32).toNat = col.toNat / 32 := by
  rw [Int.fdiv_eq_ediv _ (by norm_num)]
  omega

theorem emod_32_toNat (col : Int) (h : 0 ≤ col) :
    (col % 32).toNat = col.toNat % 32 := by omega

theorem fdiv_32_neg (col : Int) (h : col < 0) : Int.fdiv col 32 < 0 := by
  rw [Int.fdiv_eq_ediv _ (by norm_num)]
  exact Int.ediv_neg' h (by norm_num)

/-- Downsampled width of the global grid (`pixelXLength` of generatePixels at
the canvas size). -/
def pixelXLengthOf (opts : Options) : Nat := jsCeil opts.width opts.pixelRatioNat

/-- Downsampled height of the global grid. -/
def pixelYLengthOf (opts : Options) : Nat := jsCeil opts.height opts.pixelRatioNat

/-- Words per row of the global grid. -/
def wordLenOf (opts : Options) : Nat := jsCeil (pixelXLengthOf opts) 32

/-- C1: for every grid, mask and position, if tryPlace returns false then the
grid after the call is word-for-word the grid before the call.  The first
pass of tryPlaceTag only reads; the merge pass runs only when no pair
collided, so a failed test is atomic by construction. -/
theorem tryPlaceTag_fail_grid_unchanged (opts : Options) (g : List (List Nat))
    (m : Pixels) (x y : Int)
    (h : (tryPlaceTag opts g m x y).1 = false) :
    (tryPlaceTag opts g m x y).2 = g :=
  tryPlaceTag_snd_of_fail opts g m x y h

/-- Options used by concrete check instances: 32×1 canvas, pixelRatio 1,
cut = false (out-of-range reads are all-occupied). -/
def optsStrict : Options :=
  { width := 32, height := 1, pixelRatioNat := 1, lightThreshold := 382,
    opacityThreshold := 255, minFontSize := 10, maxFontSize := 100,
    angleFrom := -60, angleTo := 60, angleCount := 3, cut := false,
    padding := 5 }

/-- Same canvas with cut = true (out-of-range reads are all-free). -/
def optsCut : Options :=
  { optsStrict with cut := true }

/-- A 1×1 mask with a single ink cell at (0, 0). -/
def maskOneInk : Pixels := { width := 1, height := 1, data := [[2147483648]] }

/-- An all-ink 32-cell mask row. -/
def maskFullRow : Pixels := { width := 32, height := 1, data := [[ALL32]] }

theorem tryPlaceTag_fail_grid_unchanged_witness :
    (tryPlaceTag optsStrict [[ALL32]] maskOneInk 0 0).1 = false
      ∧ (tryPlaceTag optsStrict [[ALL32]] maskOneInk 0 0).2 = [[ALL32]] :=
  ⟨by decide, tryPlaceTag_fail_grid_unchanged optsStrict [[ALL32]] maskOneInk 0 0
    (by decide)⟩

/-- C2 as stated is false on the code: `out = cut ? 0 : -1`, so under
`cut = true` the collision test treats out-of-bounds cells as all-FREE, and
a placement whose ink lies entirely outside the grid is accepted.  Here the
single ink cell of the mask maps to grid column `pixelsX + 0 = -64 < 0`,
outside `[0, width)`, yet tryPlaceTag succeeds. -/
theorem cut_true_escapes_counterexample :
    (tryPlaceTag optsCut [[0]] maskOneInk (-64) 0).1 = true
      ∧ maskBit maskOneInk.data 0 0 = true
      ∧ pixelsXOf optsCut (-64) + (0 : Int) < 0 := by
  decide

/-- C2 (amended): the strict boundary mode is `cut = false` — there
out-of-range reads return the all-occupied word and the tail padding cells
of each row are created occupied, so every placement accepted by
tryPlaceTag has all its mask ink cells inside
`[0, pixelXLength) × [0, pixelYLength)`.  (`cut = true` is the permissive
mode, see the counterexample.)  The grid is assumed to have the global
grid's shape with occupied tail padding (as generatePixels creates it and
as every OR-merge preserves). -/
theorem tryPlaceTag_cut_false_contained (opts : Options) (g : List (List Nat))
    (m : Pixels) (x y : Int)
    (hcut : opts.cut = false)
    (hYL : g.length = pixelYLengthOf opts)
    (hlen : ∀ R, R < pixelYLengthOf opts → (g.getD R []).length = wordLenOf opts)
    (htail : ∀ R, R < pixelYLengthOf opts → ∀ C, C < 32 * wordLenOf opts →
      pixelXLengthOf opts ≤ C → gBit g R (C / 32) (31 - C % 32) = true)
    (hsucc : (tryPlaceTag opts g m x y).1 = true)
    (i c : Nat) (hi : i < m.data.length)
    (hc : c < 32 * (m.data.getD i []).length)
    (hink : maskBit m.data i c = true) :
    0 ≤ pixelsYOf opts y + (i : Int)
      ∧ pixelsYOf opts y + (i : Int) < (pixelYLengthOf opts : Int)
      ∧ 0 ≤ pixelsXOf opts x + (c : Int)
      ∧ pixelsXOf opts x + (c : Int) < (pixelXLengthOf opts : Int) := by
  have hnc : collides opts.cut g m.data (pixelsXOf opts x) (pixelsYOf opts y)
      = false := by
    rw [tryPlaceTag_fst] at hsucc
    cases hcol : collides opts.cut g m.data (pixelsXOf opts x)
      (pixelsYOf opts y)
    · rfl
    · rw [hcol] at hsucc
      simp at hsucc
  have hcell : cellAt opts.cut g (pixelsYOf opts y + i) (pixelsXOf opts x + c)
      = false := by
    cases hcv : cellAt opts.cut g (pixelsYOf opts y + i) (pixelsXOf opts x + c)
    · rfl
    · rw [collides_of_cell opts.cut g m.data _ _ i c hi hc hink hcv] at hnc
      exact absurd hnc (by simp)
  rw [hcut] at hcell
  set row := pixelsYOf opts y + (i : Int) with hrow
  set col := pixelsXOf opts x + (c : Int) with hcol
  have hkb : 31 - (col % 32).toNat < 32 := by omega
  have hall := testBit_ALL32_lt _ hkb
  -- row lower bound
  have h0r : 0 ≤ row := by
    by_contra hneg
    rw [cellAt, rowAt, if_neg (by omega), wordAt] at hcell
    simp only [List.length_nil] at hcell
    rw [if_neg (by omega), if_neg Bool.false_ne_true, hall] at hcell
    exact absurd hcell (by simp)
  -- row upper bound
  have hrlt : row < (pixelYLengthOf opts : Int) := by
    by_contra hge
    rw [cellAt, rowAt, if_pos h0r, getD_default _ _ _ (by omega), wordAt] at hcell
    simp only [List.length_nil] at hcell
    rw [if_neg (by omega), if_neg Bool.false_ne_true, hall] at hcell
    exact absurd hcell (by simp)
  -- column lower bound
  have h0c : 0 ≤ col := by
    by_contra hneg
    have hfneg := fdiv_32_neg col (by omega)
    rw [cellAt, wordAt, if_neg (by omega), if_neg Bool.false_ne_true, hall]
      at hcell
    exact absurd hcell (by simp)
  -- column upper bound
  have hclt : col < (pixelXLengthOf opts : Int) := by
    by_contra hge
    have h0w : 0 ≤ Int.fdiv col 32 := by
      rw [Int.fdiv_eq_ediv _ (by norm_num)]
      omega
    have hrowlen : (g.getD row.toNat []).length = wordLenOf opts :=
      hlen row.toNat (by omega)
    by_cases hin : (Int.fdiv col 32).toNat < wordLenOf opts
    · -- inside the row: this is an occupied tail padding cell
      have hct : col.toNat < 32 * wordLenOf opts := by
        have := fdiv_32_toNat col h0c
        omega
      have ht := htail row.toNat (by omega) col.toNat hct (by omega)
      rw [cellAt_eq_gBit _ _ _ _ h0r (by omega) h0w (by omega),
        fdiv_32_toNat col h0c, emod_32_toNat col h0c, ht] at hcell
      exact absurd hcell (by simp)
    · -- past the end of the row: out word
      rw [cellAt, rowAt, if_pos h0r, wordAt, if_neg (by omega),
        if_neg Bool.false_ne_true, hall] at hcell
      exact absurd hcell (by simp)
  exact ⟨h0r, hrlt, h0c, hclt⟩

/-- Options for the containment check: 40×4 canvas, pixelRatio 4,
cut = false: 10 downsampled columns in a single word per row. -/
def optsTail : Options :=
  { optsStrict with width := 40, height := 4, pixelRatioNat := 4 }

/-- The fresh global grid for `optsTail` (tail padding cells occupied). -/
def gridTail : List (List Nat) := (generatePixels optsTail 40 4 0 false).data

theorem tryPlaceTag_cut_false_contained_witness :
    0 ≤ pixelsYOf optsTail 0 + ((0 : Nat) : Int)
      ∧ pixelsYOf optsTail 0 + ((0 : Nat) : Int) < (pixelYLengthOf optsTail : Int)
      ∧ 0 ≤ pixelsXOf optsTail 0 + ((0 : Nat) : Int)
      ∧ pixelsXOf optsTail 0 + ((0 : Nat) : Int)
          < (pixelXLengthOf optsTail : Int) :=
  tryPlaceTag_cut_false_contained optsTail gridTail maskOneInk 0 0 rfl
    (by decide) (by decide) (by decide) (by decide) 0 0 (by decide) (by decide)
    (by decide)

/-- C3 (amended): if tryPlace accepts a placement and at least one ink cell
of the mask maps to a grid cell whose word exists in the grid, then
re-running tryPlaceTag with the same mask at the same `(x, y)` against the
resulting grid returns false.  (Universally over all masks the claim fails:
a mask with no ink cell stored inside the grid merges nothing — see the
counterexample.) -/
theorem tryPlaceTag_remerge_collides (opts : Options) (g : List (List Nat))
    (m : Pixels) (x y : Int)
    (hsucc : (tryPlaceTag opts g m x y).1 = true)
    (i c : Nat) (hi : i < m.data.length)
    (hc : c < 32 * (m.data.getD i []).length)
    (hink : maskBit m.data i c = true)
    (h0r : 0 ≤ pixelsYOf opts y + (i : Int))
    (hR : (pixelsYOf opts y + (i : Int)).toNat < g.length)
    (h0c : 0 ≤ Int.fdiv (pixelsXOf opts x + c) 32)
    (hW : (Int.fdiv (pixelsXOf opts x + c) 32).toNat
        < (g.getD (pixelsYOf opts y + (i : Int)).toNat []).length) :
    (tryPlaceTag opts (tryPlaceTag opts g m x y).2 m x y).1 = false := by
  have hmerged := tryPlaceTag_snd_of_true opts g m x y hsucc
  rw [hmerged, tryPlaceTag_fst]
  have hshape := mergePass_shape g m.data (pixelsXOf opts x) (pixelsYOf opts y)
  have hset := mergePass_sets_cell g m.data (pixelsXOf opts x)
    (pixelsYOf opts y) i c hi hc hink h0r hR h0c hW
  have hcell : cellAt opts.cut
      (mergePass g m.data (pixelsXOf opts x) (pixelsYOf opts y))
      (pixelsYOf opts y + i) (pixelsXOf opts x + c) = true := by
    rw [cellAt_eq_gBit _ _ _ _ h0r (by rw [hshape.1]; exact hR) h0c
      (by rw [hshape.2]; exact hW)]
    exact hset
  rw [collides_of_cell opts.cut _ m.data _ _ i c hi hc hink hcell]
  rfl

/-- A mask whose single word holds no ink at all. -/
def maskEmpty : Pixels := { width := 0, height := 0, data := [[0]] }

/-- C3 as universally stated is false on the code: with an ink-free mask the
first call succeeds, the merge writes nothing, and the repeated call
succeeds again (returns true, not false). -/
theorem remerge_counterexample :
    (tryPlaceTag optsStrict [[0]] maskEmpty 0 0).1 = true
      ∧ (tryPlaceTag optsStrict
          (tryPlaceTag optsStrict [[0]] maskEmpty 0 0).2 maskEmpty 0 0).1
          = true := by
  decide

theorem tryPlaceTag_remerge_collides_witness :
    (tryPlaceTag optsStrict (tryPlaceTag optsStrict [[0]] maskOneInk 0 0).2
        maskOneInk 0 0).1 = false :=
  tryPlaceTag_remerge_collides optsStrict [[0]] maskOneInk 0 0 (by decide)
    0 0 (by decide) (by decide) (by decide) (by decide) (by decide) (by decide)
    (by decide)

theorem getD_replicate' {α : Type} (n : Nat) (a : α) (R : Nat) (d : α)
    (h : R < n) : (List.replicate n a).getD R d = a := by
  induction n generalizing R with
  | zero => omega
  | succ m ih =>
    cases R with
    | zero => rfl
    | succ R' => simpa [List.replicate] using ih R' (by omega)

theorem generatePixels_data_length (opts : Options) (w h fill : Nat)
    (forTag : Bool) :
    (generatePixels opts w h fill forTag).data.length
      = jsCeil h opts.pixelRatioNat := by
  simp [generatePixels]

theorem generatePixels_row_length (opts : Options) (w h fill : Nat)
    (forTag : Bool) (R : Nat) (hR : R < jsCeil h opts.pixelRatioNat) :
    ((generatePixels opts w h fill forTag).data.getD R []).length
      = jsCeil (jsCeil w opts.pixelRatioNat) 32 := by
  simp only [generatePixels]
  rw [getD_replicate' _ _ _ _ hR, List.length_set, List.length_replicate]

theorem listUpd_getD_oob {α : Type} (l : List α) (n : Nat) (f : α → α) (d : α)
    (h : l.length ≤ n) : (listUpd l n f).getD n d = l.getD n d := by
  rw [getD_default _ _ _ (by rw [listUpd_length]; exact h), getD_default _ _ _ h]

theorem listUpd2_bit_false (g : List (List Nat)) (py2 px2 : Nat)
    (f : Nat → Nat) (PY PW b : Nat)
    (hf : ∀ w, w.testBit b = false → (f w).testBit b = false)
    (h : gBit g PY PW b = false) :
    gBit (listUpd g py2 (fun row => listUpd row px2 f)) PY PW b = false := by
  rw [gBit] at h ⊢
  by_cases hPY : py2 = PY
  · subst hPY
    by_cases hl : py2 < g.length
    · rw [listUpd_getD_eq _ _ _ _ hl]
      by_cases hPW : px2 = PW
      · subst hPW
        by_cases hw : px2 < (g.getD py2 []).length
        · rw [listUpd_getD_eq _ _ _ _ hw]
          exact hf _ h
        · rw [listUpd_getD_oob _ _ _ _ (by omega)]
          exact h
      · rw [listUpd_getD_ne _ _ _ _ _ hPW]
        exact h
    · rw [listUpd_getD_oob _ _ _ _ (by omega)]
      exact h
  · rw [listUpd_getD_ne _ _ _ _ _ hPY]
    exact h

theorem listUpd2_row_length (g : List (List Nat)) (py2 px2 : Nat)
    (f : Nat → Nat) (R : Nat) :
    ((listUpd g py2 (fun row => listUpd row px2 f)).getD R []).length
      = (g.getD R []).length := by
  by_cases hPY : py2 = R
  · subst hPY
    by_cases hl : py2 < g.length
    · rw [listUpd_getD_eq _ _ _ _ hl, listUpd_length]
    · rw [listUpd_getD_oob _ _ _ _ (by omega)]
  · rw [listUpd_getD_ne _ _ _ _ _ hPY]

theorem jsShl_one_neg (px : Nat) :
    jsShl 1 (-(px + 1 : Int)) = 2 ^ (31 - px % 32) := by
  rw [jsShl, jsAmt, W32_eq]
  have h : ((-((px : Int) + 1)) % 32).toNat = 31 - px % 32 := by omega
  rw [show (-(px + 1 : Int)) = -((px : Int) + 1) by norm_num, h,
    Nat.shiftLeft_eq, one_mul,
    Nat.mod_eq_of_lt (Nat.pow_lt_pow_right (by norm_num) (by omega))]

theorem clearMask_testBit (px : Nat) :
    (ALL32 ^^^ jsShl 1 (-(px + 1 : Int))).testBit (31 - px % 32) = false := by
  rw [jsShl_one_neg, Nat.testBit_xor, testBit_ALL32_lt _ (by omega),
    Nat.testBit_two_pow_self]
  rfl

theorem inkBitUpd_bit_false (fill px : Nat) (hfill : fill ≠ 0) (w b : Nat)
    (h : w.testBit b = false) : (inkBitUpd fill px w).testBit b = false := by
  rw [inkBitUpd, if_pos hfill, Nat.testBit_land, h]
  rfl

theorem inkBitUpd_clears (px : Nat) (w : Nat) :
    (inkBitUpd ALL32 px w).testBit (31 - px % 32) = false := by
  rw [inkBitUpd, if_pos (by decide : ALL32 ≠ 0), Nat.testBit_land,
    clearMask_testBit]
  simp

/-- C4 (amended): building the initial global grid from a mask image
(`fill = -1`, `forEdgeTag = false`, the configured thresholds) marks every
downsampled cell containing at least one ink pixel
(alpha ≥ opacityThreshold and R+G+B ≤ lightThreshold) as FREE (bit = 0):
the grid starts all-occupied and each ink cell's bit is cleared with
`&= ~(1 << -(pixelX+1))`, carving the mask silhouette into placeable
space.  (The claim's "occupied (bit = 1)" is the opposite of what the code
does — see the counterexample.) -/
theorem loadMaskImage_ink_free (opts : Options) (img : ImgData) (px py : Nat)
    (hx : px < jsCeil img.width opts.pixelRatioNat)
    (hy : py < jsCeil img.height opts.pixelRatioNat)
    (hink : cellHasInk img opts.pixelRatioNat opts.opacityThreshold
        opts.lightThreshold px py (xLenOf img opts.pixelRatioNat px)
        (yLenOf img opts.pixelRatioNat py) = true) :
    cellBit (loadMaskImage opts img) px py = false := by
  simp only [loadMaskImage, getPixelsFromImgData, cellBit]
  set XL := jsCeil img.width opts.pixelRatioNat with hXL
  set YL := jsCeil img.height opts.pixelRatioNat with hYL
  set len := jsCeil XL 32 with hlen
  have hXL0 : 0 < XL := by omega
  have hmem : py * XL + px ∈ List.range (XL * YL) := by
    rw [List.mem_range]
    calc py * XL + px < py * XL + XL := by omega
      _ = (py + 1) * XL := by ring
      _ ≤ YL * XL := Nat.mul_le_mul_right _ (by omega)
      _ = XL * YL := Nat.mul_comm _ _
  have hmod : (py * XL + px) % XL = px := by
    rw [Nat.mul_comm py XL, Nat.mul_add_mod, Nat.mod_eq_of_lt hx]
  have hdiv : (py * XL + px) / XL = py := by
    rw [Nat.mul_comm py XL, Nat.mul_add_div hXL0, Nat.div_eq_of_lt hx,
      Nat.add_zero]
  have hgoal := foldl_reach
    (fun g n =>
      if cellHasInk img opts.pixelRatioNat opts.opacityThreshold
          opts.lightThreshold (n % XL) (n / XL)
          (xLenOf img opts.pixelRatioNat (n % XL))
          (yLenOf img opts.pixelRatioNat (n / XL)) = true then
        listUpd g (n / XL)
          (fun row => listUpd row (n % XL / 32) (inkBitUpd ALL32 (n % XL)))
      else g)
    (fun g : List (List Nat) =>
      gBit g py (px / 32) (31 - px % 32) = false)
    (fun g : List (List Nat) =>
      g.length = YL ∧ ∀ R, R < YL → (g.getD R []).length = len)
    ?_ ?_ (py * XL + px) ?_ (List.range (XL * YL))
    (generatePixels opts img.width img.height ALL32 false).data hmem
    ⟨generatePixels_data_length opts img.width img.height ALL32 false,
      fun R hR =>
        generatePixels_row_length opts img.width img.height ALL32 false R hR⟩
  · exact hgoal
  · -- every step preserves a cleared bit (fill ≠ 0 only ANDs)
    intro g n hP
    dsimp only
    split
    · exact listUpd2_bit_false g (n / XL) (n % XL / 32) _ _ _ _
        (fun w hw => inkBitUpd_bit_false ALL32 (n % XL) (by decide) w _ hw) hP
    · exact hP
  · -- every step preserves the grid shape
    intro g n hQ
    dsimp only
    split
    · exact ⟨by rw [listUpd_length]; exact hQ.1,
        fun R hR => by rw [listUpd2_row_length]; exact hQ.2 R hR⟩
    · exact hQ
  · -- the step visiting cell (px, py) clears its bit
    intro g hQ
    dsimp only
    rw [hmod, hdiv, if_pos hink, gBit]
    have hpyl : py < g.length := by omega
    have hwl : px / 32 < (g.getD py []).length := by
      have := hQ.2 py hy
      have hl2 : px / 32 < len := by
        rw [hlen, jsCeil]
        omega
      omega
    rw [listUpd_getD_eq _ _ _ _ hpyl, listUpd_getD_eq _ _ _ _ hwl]
    exact inkBitUpd_clears px _

/-- A 1×1 RGBA image with a single black, fully opaque pixel (an ink pixel
for the default thresholds `opacityThreshold = 255`,
`lightThreshold = 382`). -/
def imgOneBlack : ImgData := { width := 1, height := 1, data := [0, 0, 0, 255] }

/-- C4 as stated is false on the code: the single downsampled cell of a 1×1
mask image contains an ink pixel, yet after `loadMaskImage` its bit is 0
(free), not 1 (occupied) — the `fill = -1` path CLEARS the bit with
`&= ~(1 << -(pixelX+1))`. -/
theorem maskImage_ink_occupied_counterexample :
    cellHasInk imgOneBlack 1 255 382 0 0 1 1 = true
      ∧ ¬ cellBit (loadMaskImage optsStrict imgOneBlack) 0 0 = true := by
  decide

theorem loadMaskImage_ink_free_witness :
    cellBit (loadMaskImage optsStrict imgOneBlack) 0 0 = false :=
  loadMaskImage_ink_free optsStrict imgOneBlack 0 0 (by decide) (by decide)
    (by decide)

theorem xScan_found (opts : Options) (g : List (List Nat)) (pixels : Pixels)
    (y xDir : Int) :
    ∀ (n : Nat) (x : Int) (p : Int × Int) (g' : List (List Nat)),
      (xScan opts g pixels y xDir n x).1 = some (p, g') →
      tryPlaceTag opts g pixels p.1 p.2 = (true, g') := by
  intro n
  induction n with
  | zero =>
    intro x p g' h
    simp [xScan] at h
  | succ m ih =>
    intro x p g' h
    rw [xScan] at h
    split at h
    · exact ih _ _ _ h
    · rcases htp : tryPlaceTag opts g pixels
        (x + xDir * opts.pixelRatioNat) y with ⟨b, g₂⟩
      rw [htp] at h
      cases b
      · exact ih _ _ _ h
      · simp only [Option.some.injEq, Prod.mk.injEq] at h
        obtain ⟨hp, hg⟩ := h
        subst hp
        subst hg
        exact htp

theorem yScan_found (opts : Options) (g : List (List Nat)) (pixels : Pixels)
    (x yDir : Int) :
    ∀ (n : Nat) (y : Int) (p : Int × Int) (g' : List (List Nat)),
      (yScan opts g pixels x yDir n y).1 = some (p, g') →
      tryPlaceTag opts g pixels p.1 p.2 = (true, g') := by
  intro n
  induction n with
  | zero =>
    intro y p g' h
    simp [yScan] at h
  | succ m ih =>
    intro y p g' h
    rw [yScan] at h
    split at h
    · exact ih _ _ _ h
    · rcases htp : tryPlaceTag opts g pixels x
        (y + yDir * opts.pixelRatioNat) with ⟨b, g₂⟩
      rw [htp] at h
      cases b
      · exact ih _ _ _ h
      · simp only [Option.some.injEq, Prod.mk.injEq] at h
        obtain ⟨hp, hg⟩ := h
        subst hp
        subst hg
        exact htp

theorem spiralXPhase_found (opts : Options) (g : List (List Nat))
    (pixels : Pixels) (step x y xDir : Int) (p : Int × Int)
    (g' : List (List Nat)) (x₁ : Int)
    (h : spiralXPhase opts g pixels step x y xDir = (some (p, g'), x₁)) :
    tryPlaceTag opts g pixels p.1 p.2 = (true, g') := by
  rw [spiralXPhase] at h
  split at h
  · simp at h
  · exact xScan_found opts g pixels y xDir step.toNat x p g'
      (by rw [h])

theorem spiralYPhase_found (opts : Options) (g : List (List Nat))
    (pixels : Pixels) (rest x y yDir : Int) (p : Int × Int)
    (g' : List (List Nat)) (y₁ : Int)
    (h : spiralYPhase opts g pixels rest x y yDir = (some (p, g'), y₁)) :
    tryPlaceTag opts g pixels p.1 p.2 = (true, g') := by
  rw [spiralYPhase] at h
  split at h
  · simp at h
  · exact yScan_found opts g pixels x yDir rest.toNat y p g'
      (by rw [h])

theorem spiralLoop_found (opts : Options) (g : List (List Nat))
    (pixels : Pixels) (endLen : Int) :
    ∀ (fuel : Nat) (step x y xDir yDir : Int) (p : Int × Int)
      (g' : List (List Nat)),
      spiralLoop opts g pixels endLen fuel step x y xDir yDir
          = some (some p, g') →
      tryPlaceTag opts g pixels p.1 p.2 = (true, g') := by
  intro fuel
  induction fuel with
  | zero =>
    intro step x y xDir yDir p g' h
    simp [spiralLoop] at h
  | succ m ih =>
    intro step x y xDir yDir p g' h
    rw [spiralLoop] at h
    split at h
    · simp at h
    · split at h
      · rename_i pp gg xx heq
        simp only [Option.some.injEq, Prod.mk.injEq] at h
        obtain ⟨hp, hg⟩ := h
        subst hp
        subst hg
        exact spiralXPhase_found opts g pixels _ _ _ _ _ _ _ heq
      · split at h
        · rename_i pp gg yy heq
          simp only [Option.some.injEq, Prod.mk.injEq] at h
          obtain ⟨hp, hg⟩ := h
          subst hp
          subst hg
          exact spiralYPhase_found opts g pixels _ _ _ _ _ _ _ heq
        · exact ih _ _ _ _ _ _ _ h

theorem spiralLoop_total (opts : Options) (g : List (List Nat))
    (pixels : Pixels) (endLen : Int) :
    ∀ (fuel : Nat) (step x y xDir yDir : Int),
      (2 * endLen - step).toNat < fuel →
      spiralLoop opts g pixels endLen fuel step x y xDir yDir ≠ none := by
  intro fuel
  induction fuel with
  | zero =>
    intro step x y xDir yDir h
    omega
  | succ m ih =>
    intro step x y xDir yDir h
    rw [spiralLoop]
    split
    · simp
    · rename_i hcond
      have hstep : step < 2 * endLen := by
        rw [Int.fdiv_eq_ediv _ (by norm_num)] at hcond
        omega
      split
      · simp
      · split
        · simp
        · exact ih _ _ _ _ _ (by omega)

theorem placeEndLen_pos (opts : Options) (pixels : Pixels) :
    1 ≤ placeEndLen opts pixels := by
  rw [placeEndLen]
  have hm : 0 ≤ max (max (placeStartX opts pixels)
      ((opts.width : Int) - placeStartX opts pixels))
      (max (placeStartY opts pixels)
        ((opts.height : Int) - placeStartY opts pixels)) := by
    rcases le_or_lt 0 (placeStartX opts pixels) with h1 | h1
    · exact le_trans (le_trans h1 (le_max_left _ _)) (le_max_left _ _)
    · have h2 : (0 : Int) ≤ (opts.width : Int) - placeStartX opts pixels := by
        have : (0 : Int) ≤ (opts.width : Int) := by positivity
        omega
      exact le_trans (le_trans h2 (le_max_right _ _)) (le_max_left _ _)
  have h3 : (0 : Int) ≤ Int.tdiv (max (max (placeStartX opts pixels)
      ((opts.width : Int) - placeStartX opts pixels))
      (max (placeStartY opts pixels)
        ((opts.height : Int) - placeStartY opts pixels)))
      (opts.pixelRatioNat : Int) :=
    Int.tdiv_nonneg hm (by positivity)
  omega

/-- C5: the spiral placement search terminates within the source's bound and
is sound.  (a) With fuel `(2*endLen).toNat` — the number of iterations the
`while (step >> 1 < endLen)` loop can possibly make from `step = 1` — the
loop always finishes (never runs out of fuel, i.e. never loops forever):
either some probe was accepted or the bound was reached and failure
(`[NaN, NaN]`) is reported.  (b) Whatever position placeTag returns was
accepted by tryPlaceTag against the original grid (probes are tested in
order and the first accepted one is returned immediately; failed probes do
not change the grid), and the final grid is the merged grid of that
accepted probe. -/
theorem placeTag_terminates_and_accepts (opts : Options) (g : List (List Nat))
    (pixels : Pixels) (xDir yDir : Int) :
    spiralLoop opts g pixels (placeEndLen opts pixels)
        ((2 * placeEndLen opts pixels).toNat) 1
        (placeStartX opts pixels) (placeStartY opts pixels) xDir yDir ≠ none
      ∧ ∀ (p : Int × Int) (g' : List (List Nat)),
          placeTag opts g pixels xDir yDir = (some p, g') →
          tryPlaceTag opts g pixels p.1 p.2 = (true, g') := by
  constructor
  · apply spiralLoop_total
    have := placeEndLen_pos opts pixels
    omega
  · intro p g' h
    rw [placeTag] at h
    split at h
    · rename_i g₂ heq
      simp only [Prod.mk.injEq, Option.some.injEq] at h
      obtain ⟨hp, hg⟩ := h
      subst hp
      subst hg
      exact heq
    · split at h
      · rename_i r heq
        subst h
        exact spiralLoop_found opts g pixels (placeEndLen opts pixels) _ _ _ _
          _ _ _ _ heq
      · simp at h

theorem placeTag_terminates_and_accepts_witness :
    tryPlaceTag optsStrict [[0]] maskOneInk 15 0 = (true, [[65536]]) :=
  (placeTag_terminates_and_accepts optsStrict [[0]] maskOneInk 1 1).2 (15, 0)
    [[65536]] (by decide)

set_option maxHeartbeats 1600000 in
theorem handleTag_spec (env : TagEnv) (s : CloudState) (tag : Tag) :
    (handleTag env s tag).1.text = tag.text
      ∧ (handleTag env s tag).1.weight = tag.weight
      ∧ (handleTag env s tag).1.fontSize
          = computeFontSize s.options s.maxTagWeight s.minTagWeight tag.weight
      ∧ (handleTag env s tag).2.options = s.options
      ∧ (handleTag env s tag).2.maxTagWeight = s.maxTagWeight
      ∧ (handleTag env s tag).2.minTagWeight = s.minTagWeight := by
  unfold handleTag
  split <;> dsimp only <;> split <;>
    first
      | exact ⟨rfl, rfl, rfl, rfl, rfl, rfl⟩
      | (split <;> exact ⟨rfl, rfl, rfl, rfl, rfl, rfl⟩)

theorem handleTag_text_weight (env : TagEnv) (s : CloudState) (tag : Tag) :
    (handleTag env s tag).1.text = tag.text
      ∧ (handleTag env s tag).1.weight = tag.weight :=
  ⟨(handleTag_spec env s tag).1, (handleTag_spec env s tag).2.1⟩

theorem handleTag_fontSize (env : TagEnv) (s : CloudState) (tag : Tag) :
    (handleTag env s tag).1.fontSize
      = computeFontSize s.options s.maxTagWeight s.minTagWeight tag.weight :=
  (handleTag_spec env s tag).2.2.1

theorem handleTag_state (env : TagEnv) (s : CloudState) (tag : Tag) :
    (handleTag env s tag).2.options = s.options
      ∧ (handleTag env s tag).2.maxTagWeight = s.maxTagWeight
      ∧ (handleTag env s tag).2.minTagWeight = s.minTagWeight :=
  (handleTag_spec env s tag).2.2.2

theorem drawLoop_length (envs : Nat → TagEnv) :
    ∀ (L : List Tag) (i : Nat) (s : CloudState),
      (drawLoop envs i s L).1.length = L.length := by
  intro L
  induction L with
  | nil => intro i s; rfl
  | cons t ts ih =>
    intro i s
    simp only [drawLoop, List.length_cons]
    rw [ih]

theorem drawLoop_map_pair (envs : Nat → TagEnv) :
    ∀ (L : List Tag) (i : Nat) (s : CloudState),
      (drawLoop envs i s L).1.map (fun d => (d.text, d.weight))
        = L.map (fun t => (t.text, t.weight)) := by
  intro L
  induction L with
  | nil => intro i s; rfl
  | cons t ts ih =>
    intro i s
    simp only [drawLoop, List.map_cons]
    rw [ih, (handleTag_text_weight (envs i) s t).1,
      (handleTag_text_weight (envs i) s t).2]

theorem drawLoop_map_weight (envs : Nat → TagEnv) :
    ∀ (L : List Tag) (i : Nat) (s : CloudState),
      (drawLoop envs i s L).1.map TagData.weight = L.map Tag.weight := by
  intro L
  induction L with
  | nil => intro i s; rfl
  | cons t ts ih =>
    intro i s
    simp only [drawLoop, List.map_cons]
    rw [ih, (handleTag_text_weight (envs i) s t).2]

theorem drawLoop_state (envs : Nat → TagEnv) :
    ∀ (L : List Tag) (i : Nat) (s : CloudState),
      (drawLoop envs i s L).2.options = s.options
        ∧ (drawLoop envs i s L).2.maxTagWeight = s.maxTagWeight
        ∧ (drawLoop envs i s L).2.minTagWeight = s.minTagWeight := by
  intro L
  induction L with
  | nil => intro i s; exact ⟨rfl, rfl, rfl⟩
  | cons t ts ih =>
    intro i s
    simp only [drawLoop]
    obtain ⟨h1, h2, h3⟩ := ih (i + 1) (handleTag (envs i) s t).2
    obtain ⟨g1, g2, g3⟩ := handleTag_state (envs i) s t
    exact ⟨h1.trans g1, h2.trans g2, h3.trans g3⟩

theorem drawLoop_fontSize (envs : Nat → TagEnv) :
    ∀ (L : List Tag) (i : Nat) (s : CloudState) (d : TagData),
      d ∈ (drawLoop envs i s L).1 →
      d.fontSize
        = computeFontSize s.options s.maxTagWeight s.minTagWeight d.weight := by
  intro L
  induction L with
  | nil => intro i s d hd; simp [drawLoop] at hd
  | cons t ts ih =>
    intro i s d hd
    simp only [drawLoop, List.mem_cons] at hd
    rcases hd with rfl | hd
    · rw [handleTag_fontSize, (handleTag_text_weight (envs i) s t).2]
    · obtain ⟨g1, g2, g3⟩ := handleTag_state (envs i) s t
      rw [ih (i + 1) (handleTag (envs i) s t).2 d hd, g1, g2, g3]

theorem sortTags_perm (tags : List Tag) : (sortTags tags).Perm tags :=
  List.mergeSort_perm tags _

theorem sortTags_sorted (tags : List Tag) :
    (sortTags tags).Pairwise (fun a b => b.weight ≤ a.weight) := by
  have h := @List.sorted_mergeSort Tag
    (fun a b : Tag => decide (b.weight ≤ a.weight))
    (by
      intro a b c hab hbc
      simp only [decide_eq_true_eq] at hab hbc ⊢
      exact le_trans hbc hab)
    (by
      intro a b
      simp only [Bool.or_eq_true, decide_eq_true_eq]
      exact le_total b.weight a.weight)
    tags
  rw [sortTags]
  exact h.imp (by intro a b hab; simpa using hab)

/-- A rasterizer oracle whose measured text is far wider than the canvas
(forcing the OversizedTag path) with trivial randomness. -/
def envStub : TagEnv :=
  { angleIdx := 0, colorRand := "#000000", measuredWidth := 1000,
    fontBoundingBoxAscent := 10, fontBoundingBoxDescent := 3,
    cosTheta := 1, sinTheta := 0, imgBytes := [], xDir := 1, yDir := 1 }

/-- A tag of negative weight. -/
def tagNeg : Tag :=
  { text := "a", weight := -1, angle := some 0, color := some "#fff" }

/-- A tag of positive weight. -/
def tagPos : Tag :=
  { text := "b", weight := 2, angle := some 0, color := some "#fff" }

/-- An instance state whose running extrema are equal (maxW = minW = 2). -/
def stateEq : CloudState :=
  { options := optsStrict, pixels := initPixels optsStrict,
    maxTagWeight := 2, minTagWeight := some 2 }

/-- An instance state with a non-trivial running weight range. -/
def stateWeights : CloudState :=
  { options := optsStrict, pixels := initPixels optsStrict,
    maxTagWeight := 5, minTagWeight := some 2 }

/-- C6: for every non-empty batch, draw completes with exactly one TagData
per input Tag — per-tag placement failures only mark `rendered = false`,
they never drop a result or abort the batch — and the returned sequence is
in weight-descending (weight-sorted) order, its (text, weight) pairs a
permutation of the input's. -/
theorem draw_batch_complete (envs : Nat → TagEnv) (s : CloudState)
    (tags : List Tag) (hne : tags ≠ []) :
    (draw envs s tags).1.length = tags.length
      ∧ (draw envs s tags).1.Pairwise (fun a b => b.weight ≤ a.weight)
      ∧ ((draw envs s tags).1.map (fun d => (d.text, d.weight))).Perm
          (tags.map fun t => (t.text, t.weight)) := by
  cases tags with
  | nil => exact absurd rfl hne
  | cons t ts =>
    simp only [draw, performDraw]
    refine ⟨?_, ?_, ?_⟩
    · rw [drawLoop_length, (sortTags_perm (t :: ts)).length_eq]
    · have h1 : ((drawLoop envs 0
          { s with
              maxTagWeight := (observeWeights (t :: ts) s.maxTagWeight
                s.minTagWeight).1,
              minTagWeight := (observeWeights (t :: ts) s.maxTagWeight
                s.minTagWeight).2 }
          (sortTags (t :: ts))).1.map TagData.weight).Pairwise
          (fun a b : Rat => b ≤ a) := by
        rw [drawLoop_map_weight]
        exact List.pairwise_map.mpr (sortTags_sorted (t :: ts))
      exact List.pairwise_map.mp h1
    · rw [drawLoop_map_pair]
      exact (sortTags_perm (t :: ts)).map _

theorem draw_batch_complete_witness :
    (draw (fun _ => envStub) (freshState optsStrict) [tagNeg]).1.length = 1
      ∧ (draw (fun _ => envStub) (freshState optsStrict) [tagNeg]).1.Pairwise
          (fun a b => b.weight ≤ a.weight)
      ∧ ((draw (fun _ => envStub) (freshState optsStrict) [tagNeg]).1.map
          (fun d => (d.text, d.weight))).Perm
          ([tagNeg].map fun t => (t.text, t.weight)) :=
  draw_batch_complete (fun _ => envStub) (freshState optsStrict) [tagNeg]
    (by simp)

/-- C10: a non-empty draw sorts the caller-supplied tags array in place:
after the call the caller's array content (modelled as the second component
of `draw`) is exactly the stable weight-descending sort of its previous
content — mutated and observably reordered. -/
theorem draw_sorts_in_place (envs : Nat → TagEnv) (s : CloudState)
    (tags : List Tag) (hne : tags ≠ []) :
    (draw envs s tags).2.1 = sortTags tags
      ∧ (draw envs s tags).2.1.Pairwise (fun a b => b.weight ≤ a.weight)
      ∧ (draw envs s tags).2.1.Perm tags := by
  cases tags with
  | nil => exact absurd rfl hne
  | cons t ts => exact ⟨rfl, sortTags_sorted _, sortTags_perm _⟩

theorem draw_sorts_in_place_witness :
    (draw (fun _ => envStub) (freshState optsStrict) [tagNeg]).2.1
        = sortTags [tagNeg]
      ∧ (draw (fun _ => envStub) (freshState optsStrict) [tagNeg]).2.1.Pairwise
          (fun a b => b.weight ≤ a.weight)
      ∧ (draw (fun _ => envStub) (freshState optsStrict) [tagNeg]).2.1.Perm
          [tagNeg] :=
  draw_sorts_in_place (fun _ => envStub) (freshState optsStrict) [tagNeg]
    (by simp)

/-- C9 (amended): the weight range is the running extrema — updated before
each batch from the batch's weights and never reset between successive
draw batches — but clear() does NOT reset it: clear() only rebuilds the
initial grid (and clears the DOM wrapper / display canvas), leaving
`maxTagWeight` and `minTagWeight` untouched. -/
theorem weight_range_running (envs : Nat → TagEnv) (s : CloudState) (t : Tag)
    (ts : List Tag) :
    ((draw envs s (t :: ts)).2.2.maxTagWeight
        = (observeWeights (t :: ts) s.maxTagWeight s.minTagWeight).1
      ∧ (draw envs s (t :: ts)).2.2.minTagWeight
        = (observeWeights (t :: ts) s.maxTagWeight s.minTagWeight).2)
      ∧ (clear s).maxTagWeight = s.maxTagWeight
      ∧ (clear s).minTagWeight = s.minTagWeight
      ∧ (clear s).pixels = initPixels s.options := by
  refine ⟨⟨?_, ?_⟩, rfl, rfl, rfl⟩
  · simp only [draw, performDraw]
    exact (drawLoop_state envs _ 0 _).2.1
  · simp only [draw, performDraw]
    exact (drawLoop_state envs _ 0 _).2.2

/-- C9 as stated is false on the code: clear() does not reset the weight
range.  A state with running extrema (5, 2) keeps exactly those extrema
after clear(), instead of returning to the fresh-instance values
(0, Infinity). -/
theorem clear_no_weight_reset_counterexample :
    (clear stateWeights).maxTagWeight = 5
      ∧ (clear stateWeights).minTagWeight = some 2
      ∧ ¬ (clear stateWeights).maxTagWeight
          = (freshState optsStrict).maxTagWeight
      ∧ ¬ (clear stateWeights).minTagWeight
          = (freshState optsStrict).minTagWeight := by
  refine ⟨rfl, rfl, ?_, ?_⟩
  · norm_num [clear, freshState, stateWeights]
  · simp [clear, freshState, stateWeights]

theorem weight_range_running_witness :
    ((draw (fun _ => envStub) stateWeights [tagPos]).2.2.maxTagWeight
        = (observeWeights [tagPos] stateWeights.maxTagWeight
            stateWeights.minTagWeight).1
      ∧ (draw (fun _ => envStub) stateWeights [tagPos]).2.2.minTagWeight
        = (observeWeights [tagPos] stateWeights.maxTagWeight
            stateWeights.minTagWeight).2)
      ∧ (clear stateWeights).maxTagWeight = stateWeights.maxTagWeight
      ∧ (clear stateWeights).minTagWeight = stateWeights.minTagWeight
      ∧ (clear stateWeights).pixels = initPixels stateWeights.options :=
  weight_range_running (fun _ => envStub) stateWeights tagPos []

theorem observeWeights_const_step (w m : Rat) (hm : ¬ m < w) :
    ∀ (tags : List Tag), (∀ t ∈ tags, t.weight = w) →
      observeWeights tags m (some w) = (m, some w) := by
  intro tags
  induction tags with
  | nil => intro _; rfl
  | cons t ts ih =>
    intro hall
    have hw : t.weight = w := hall t (by simp)
    have hrec := ih fun u hu => hall u (by simp [hu])
    rw [observeWeights] at hrec ⊢
    rw [List.foldl_cons]
    dsimp only
    rw [hw, if_neg hm, if_neg (lt_irrefl w)]
    exact hrec

theorem observeWeights_const (w : Rat) :
    ∀ (tags : List Tag), tags ≠ [] → (∀ t ∈ tags, t.weight = w) →
      observeWeights tags 0 none = ((if 0 < w then w else 0), some w) := by
  intro tags
  cases tags with
  | nil => intro h; exact absurd rfl h
  | cons t ts =>
    intro _ hall
    have hw : t.weight = w := hall t (by simp)
    rw [observeWeights, List.foldl_cons]
    dsimp only
    rw [hw]
    have hm : ¬ (if 0 < w then w else 0) < w := by
      split
      · exact lt_irrefl w
      · assumption
    exact observeWeights_const_step w _ hm ts fun u hu => hall u (by simp [hu])

/-- C7 (amended): (a) when the running maxWeight exceeds the running
minWeight the computed font size is
`round(minFont + (maxFont-minFont)·(w-minW)/(maxW-minW))`; (b) when they
are equal it is `round((minFont+maxFont)/2)`; (c) an all-equal-weight batch
on a fresh instance yields the midpoint for every tag provided the common
weight is NONNEGATIVE — for a negative equal weight `w` the running
maxWeight stays at its initial 0 > w, case (a) applies and yields
`round(minFont)` instead (see the counterexample). -/
theorem fontSize_formula (opts : Options) :
    (∀ (s : CloudState) (env : TagEnv) (tag : Tag) (mn : Rat),
      s.minTagWeight = some mn → 0 < s.maxTagWeight - mn →
      (handleTag env s tag).1.fontSize
        = jsRound (s.options.minFontSize
          + (s.options.maxFontSize - s.options.minFontSize)
            * ((tag.weight - mn) / (s.maxTagWeight - mn))))
    ∧ (∀ (s : CloudState) (env : TagEnv) (tag : Tag) (mn : Rat),
      s.minTagWeight = some mn → s.maxTagWeight = mn →
      (handleTag env s tag).1.fontSize
        = jsRound ((s.options.maxFontSize + s.options.minFontSize) / 2))
    ∧ (∀ (envs : Nat → TagEnv) (tags : List Tag) (w : Rat),
      0 ≤ w → tags ≠ [] → (∀ t ∈ tags, t.weight = w) →
      ∀ d ∈ (draw envs (freshState opts) tags).1,
        d.fontSize = jsRound ((opts.maxFontSize + opts.minFontSize) / 2)) := by
  refine ⟨?_, ?_, ?_⟩
  · intro s env tag mn hmn hdiff
    rw [handleTag_fontSize, hmn]
    simp only [computeFontSize]
    rw [if_pos hdiff]
  · intro s env tag mn hmn hmax
    rw [handleTag_fontSize, hmn]
    simp only [computeFontSize]
    rw [hmax, sub_self, if_neg (lt_irrefl 0)]
  · intro envs tags w hw hne hall d hd
    cases tags with
    | nil => exact absurd rfl hne
    | cons t ts =>
      simp only [draw, performDraw] at hd
      have hobs := observeWeights_const w (t :: ts) hne hall
      have hfs := drawLoop_fontSize envs (sortTags (t :: ts)) 0 _ d hd
      rw [hfs]
      simp only [freshState] at hobs ⊢
      rw [hobs]
      simp only [computeFontSize]
      have hzero : (if 0 < w then w else 0) - w = 0 := by
        split
        · exact sub_self w
        · rename_i hnw
          have hw0 : w = 0 := le_antisymm (not_lt.mp hnw) hw
          rw [hw0, sub_zero]
      rw [hzero, if_neg (lt_irrefl 0)]

theorem fontSize_formula_witness :
    (handleTag envStub stateEq tagPos).1.fontSize
      = jsRound ((optsStrict.maxFontSize + optsStrict.minFontSize) / 2) :=
  (fontSize_formula optsStrict).2.1 stateEq envStub tagPos 2 rfl rfl

/-- C7's "in particular" clause is false for negative weights: on a fresh
instance (running maxWeight 0, minWeight Infinity) a batch of one tag of
weight -1 updates the extrema to (0, -1); then maxWeight > minWeight, the
linear formula applies with (w - minW) = 0, and the computed font size is
round(minFont) = 10, not the midpoint round((10+100)/2) = 55. -/
theorem fresh_negative_weight_counterexample :
    ((draw (fun _ => envStub) (freshState optsStrict) [tagNeg]).1.map
        TagData.fontSize) = [10]
      ∧ (10 : Int)
          ≠ jsRound ((optsStrict.maxFontSize + optsStrict.minFontSize) / 2) := by
  constructor
  · have hsort : sortTags [tagNeg] = [tagNeg] :=
      List.perm_singleton.mp (sortTags_perm [tagNeg])
    simp only [draw, performDraw, hsort, drawLoop, List.map_cons, List.map_nil]
    rw [handleTag_fontSize]
    norm_num [observeWeights, computeFontSize, jsRound, freshState, optsStrict,
      tagNeg]
  · norm_num [jsRound, optsStrict]

/-- C8: for every tag whose rotated, padded bounding box exceeds the canvas
in either dimension, mask construction fails (getTagPixels returns null)
and handleTag reports the tag with `rendered = false` and `x = y = NaN`
(`none`), leaving the instance state — in particular the occupancy grid —
untouched: the placement search is never reached. -/
theorem oversized_tag_not_rendered (env : TagEnv) (s : CloudState) (tag : Tag)
    (hbig : (s.options.height : Int)
        < jsTrunc (|(env.fontBoundingBoxAscent + env.fontBoundingBoxDescent
            + s.options.padding) * env.cosTheta|
          + |(env.measuredWidth + s.options.padding) * env.sinTheta|)
      ∨ (s.options.width : Int)
        < jsTrunc (|(env.fontBoundingBoxAscent + env.fontBoundingBoxDescent
            + s.options.padding) * env.sinTheta|
          + |(env.measuredWidth + s.options.padding) * env.cosTheta|)) :
    (handleTag env s tag).1.rendered = false
      ∧ (handleTag env s tag).1.x = none
      ∧ (handleTag env s tag).1.y = none
      ∧ (handleTag env s tag).2 = s := by
  have hnull : getTagPixels s.options env = none := by
    unfold getTagPixels
    dsimp only
    rw [if_pos hbig]
  unfold handleTag
  split <;> dsimp only <;> rw [hnull] <;> exact ⟨rfl, rfl, rfl, rfl⟩

theorem oversized_tag_not_rendered_witness :
    (handleTag envStub (freshState optsStrict) tagPos).1.rendered = false
      ∧ (handleTag envStub (freshState optsStrict) tagPos).1.x = none
      ∧ (handleTag envStub (freshState optsStrict) tagPos).1.y = none
      ∧ (handleTag envStub (freshState optsStrict) tagPos).2
          = freshState optsStrict :=
  oversized_tag_not_rendered envStub (freshState optsStrict) tagPos
    (by norm_num [jsTrunc, envStub, freshState, optsStrict])
